import Mathlib

/-!
# Verification of the DEHB Differential-Evolution kernel

Shallow embedding of `src/dehb/optimizers/de.py` (classes `DEBase`, `DE`, `AsyncDE`).

Modelling conventions:
* Machine floats are modelled as rationals; `np.inf` is `⊤` in `WithTop ℚ`.
* A population vector is a `List ℚ`; the population and its parallel arrays are lists.
* The numpy random `Generator` is an abstract state type `R` with one named operation per
  numpy call site; both execution regimes consume the same operations in the same order.
* Numpy row views (`self.population[i]` stored into `inc_config`/`inc_id`) are modelled by
  the row index; a dereference reads the current row.
* The `ConfigRepository` (whose source is not under src/) is modelled from the spec by its
  monotone next-id counter; stored results are irrelevant to the DE kernel state.
* Fidelity is opaque to the kernel and constant through a run; it is dropped.
-/

namespace DEHB

/-- Vectors in the unit hypercube: one rational per dimension. -/
abbrev Vec := List ℚ

/-- Fitness values: rationals extended with `np.inf`. -/
abbrev Fit := WithTop ℚ

/-- Ages: integers extended with `np.inf` (`max_age` defaults to `np.inf`). -/
abbrev AgeV := WithTop ℤ

/-- `age - 1` in numpy arithmetic: `inf - 1 = inf`. -/
def ageDec (a : AgeV) : AgeV := a.map (fun z => z - 1)

/-- The `inc_id` field: `reset` writes the integer `-1`, `init_eval_pop` and `DE.tell` write
an integer config id, but `DE.selection` (source line 540) writes `self.population[i]`, a
numpy row view, modelled as the row index. -/
inductive IncId where
  | idv (n : ℤ)
  | rowv (i : ℕ)
deriving DecidableEq

/-- Objective function contract: a pure map from a vector to (fitness, cost). -/
abbrev Obj := Vec → Fit × ℚ

/-- Mutable optimizer state of a `DE` instance: the four parallel population arrays, the
incumbent triple, the trajectory arrays, and the repository id counter. -/
structure S where
  population : List Vec
  population_ids : List ℤ
  fitness : List Fit
  age : List AgeV
  inc_score : Fit
  inc_config : Option ℕ
  inc_id : IncId
  traj : List Fit
  runtime : List ℚ
  history : List (Vec × Fit)
  next_id : ℤ
deriving DecidableEq

/-- Constructor-time options of a `DE` instance (no-ConfigSpace mode, `encoding=False`). -/
structure Params where
  pop_size : ℕ
  dimensions : ℕ
  mutation_factor : ℚ
  crossover_prob : ℚ
  mutation_strategy : String
  crossover_strategy : String
  max_age : AgeV
  fix_type : String
deriving DecidableEq

/-- Abstract deterministic RNG stream (`np.random.Generator`): one operation per numpy call
site, each consuming the state.  `uniform_mat_len` is the numpy output-shape guarantee used
to keep the population arrays aligned. -/
structure RNG (R : Type) where
  choice : ℕ → ℕ → R → List ℕ × R
  random_vec : ℕ → R → List ℚ × R
  integers : ℕ → R → ℕ × R
  random1 : R → ℚ × R
  uniform_vec : ℕ → R → List ℚ × R
  uniform_mat : ℕ → ℕ → R → List Vec × R
  uniform_mat_len : ∀ n d r, (uniform_mat n d r).1.length = n

/-- Pointwise vector addition (numpy `+` on equal-shape arrays). -/
def vadd (a b : Vec) : Vec := List.zipWith (fun x y => x + y) a b

/-- Pointwise vector subtraction. -/
def vsub (a b : Vec) : Vec := List.zipWith (fun x y => x - y) a b

/-- Scalar multiplication. -/
def vsmul (c : ℚ) (v : Vec) : Vec := v.map (fun x => c * x)

/-- `np.argmin`: index of the first minimal entry (`argminIdx [] = 0`). -/
def argminIdx : List Fit → ℕ
  | [] => 0
  | x :: xs =>
    let j := argminIdx xs
    if xs.getD j ⊤ < x then j + 1 else 0

/-- Minimum entry of a fitness array (`⊤` on the empty array). -/
def minFit (l : List Fit) : Fit := l.foldr min ⊤

/-- Modelled from the spec: `ConfigRepository.announce_population` (the repository source is
not under src/) assigns monotone non-negative ids in announcement order. -/
def announce_population (s : S) (pop : List Vec) : List ℤ × S :=
  ((List.range pop.length).map (fun i => s.next_id + i),
   { s with next_id := s.next_id + pop.length })

/-- Modelled from the spec: `ConfigRepository.announce_config` assigns the next id. -/
def announce_config (s : S) (_trial : Vec) : ℤ × S :=
  (s.next_id, { s with next_id := s.next_id + 1 })

/-- A coordinate violating the unit-hypercube bound (`vector > 1 | vector < 0`). -/
def isViol (x : ℚ) : Bool := x > 1 || x < 0

/-- Number of violating coordinates (`len(violations)`). -/
def numViol (v : Vec) : ℕ := (v.filter isViol).length

/-- `vector[violations] = rng.uniform(size=len(violations))`: replace each violating
coordinate with the next replacement value. -/
def fixRandom : Vec → List ℚ → Vec
  | [], _ => []
  | x :: xs, us =>
    if isViol x then
      match us with
      | [] => x :: fixRandom xs []
      | u :: us2 => u :: fixRandom xs us2
    else x :: fixRandom xs us

/-- `np.clip(×, a_min=0, a_max=1)` on one coordinate. -/
def clip01 (x : ℚ) : ℚ := max 0 (min 1 x)

/-- `vector[violations] = np.clip(vector[violations], 0, 1)`. -/
def fixClip (v : Vec) : Vec := v.map (fun x => if isViol x then clip01 x else x)

/-- `DEBase.boundary_check`: repair out-of-range coordinates per the boundary policy. -/
def boundary_check {R} (rng : RNG R) (p : Params) (v : Vec) (r : R) : Vec × R :=
  if numViol v = 0 then (v, r)
  else if p.fix_type = "random" then
    let (us, r1) := rng.uniform_vec (numViol v) r
    (fixRandom v us, r1)
  else (fixClip v, r)

/-- `DEBase.sample_population` with `alt_pop` either absent (`None`) or an actual population
(a list of valid individuals): draw `size` indices without replacement and gather rows. -/
def sample_population {R} (rng : RNG R) (pop : List Vec) (size : ℕ)
    (alt_pop : Option (List Vec)) (r : R) : List Vec × R :=
  match alt_pop with
  | some ap =>
    let pool := if ap.length < 3 then ap ++ pop else ap
    let (sel, r1) := rng.choice pool.length size r
    (sel.map (fun i => pool.getD i []), r1)
  | none =>
    let (sel, r1) := rng.choice pop.length size r
    (sel.map (fun i => pop.getD i []), r1)

/-- `DE.mutation_rand1`: `r1 + F·(r2 − r3)`. -/
def mutation_rand1 (F : ℚ) (r1 r2 r3 : Vec) : Vec :=
  vadd r1 (vsmul F (vsub r2 r3))

/-- `DE.mutation_rand2`: `r1 + F·(r2 − r3) + F·(r4 − r5)`. -/
def mutation_rand2 (F : ℚ) (r1 r2 r3 r4 r5 : Vec) : Vec :=
  vadd (vadd r1 (vsmul F (vsub r2 r3))) (vsmul F (vsub r4 r5))

/-- `DE.mutation_currenttobest1`: `current + F·(best − current) + F·(r1 − r2)`. -/
def mutation_currenttobest1 (F : ℚ) (current best r1 r2 : Vec) : Vec :=
  vadd (vadd current (vsmul F (vsub best current))) (vsmul F (vsub r1 r2))

/-- `DE.mutation_rand2dir`: `r1 + F·(r1 − r2 − r3)/2`. -/
def mutation_rand2dir (F : ℚ) (r1 r2 r3 : Vec) : Vec :=
  vadd r1 ((vsmul F (vsub (vsub r1 r2) r3)).map (fun x => x / 2))

/-- `best` argument resolution inside the `best*`/`*tobest1` branches: the supplied `best`
or, when `None`, the population member at `np.argmin(fitness)`. -/
def getBest (pop : List Vec) (fit : List Fit) (best : Option Vec) : Vec :=
  match best with
  | some b => b
  | none => pop.getD (argminIdx fit) []

/-- `DE.mutation`: strategy dispatch on the mutation-strategy name.  `none` models the
`UnboundLocalError` on an unknown name (and the `TypeError` when `currenttobest1` is called
without a current individual). -/
def mutation {R} (rng : RNG R) (p : Params) (pop : List Vec) (fit : List Fit)
    (current : Option Vec) (best : Option Vec) (alt_pop : Option (List Vec)) (r : R) :
    Option (Vec × R) :=
  if p.mutation_strategy = "rand1" then
    let (s, r1) := sample_population rng pop 3 alt_pop r
    some (mutation_rand1 p.mutation_factor (s.getD 0 []) (s.getD 1 []) (s.getD 2 []), r1)
  else if p.mutation_strategy = "rand2" then
    let (s, r1) := sample_population rng pop 5 alt_pop r
    some (mutation_rand2 p.mutation_factor (s.getD 0 []) (s.getD 1 []) (s.getD 2 [])
      (s.getD 3 []) (s.getD 4 []), r1)
  else if p.mutation_strategy = "rand2dir" then
    let (s, r1) := sample_population rng pop 3 alt_pop r
    some (mutation_rand2dir p.mutation_factor (s.getD 0 []) (s.getD 1 []) (s.getD 2 []), r1)
  else if p.mutation_strategy = "best1" then
    let (s, r1) := sample_population rng pop 2 alt_pop r
    some (mutation_rand1 p.mutation_factor (getBest pop fit best) (s.getD 0 [])
      (s.getD 1 []), r1)
  else if p.mutation_strategy = "best2" then
    let (s, r1) := sample_population rng pop 4 alt_pop r
    some (mutation_rand2 p.mutation_factor (getBest pop fit best) (s.getD 0 []) (s.getD 1 [])
      (s.getD 2 []) (s.getD 3 []), r1)
  else if p.mutation_strategy = "currenttobest1" then
    match current with
    | none => none
    | some cur =>
      let (s, r1) := sample_population rng pop 2 alt_pop r
      some (mutation_currenttobest1 p.mutation_factor cur (getBest pop fit best)
        (s.getD 0 []) (s.getD 1 []), r1)
  else if p.mutation_strategy = "randtobest1" then
    let (s, r1) := sample_population rng pop 3 alt_pop r
    some (mutation_currenttobest1 p.mutation_factor (s.getD 0 []) (getBest pop fit best)
      (s.getD 1 []) (s.getD 2 []), r1)
  else none

/-- Selector mask for one coordinate of `np.where(cross_points, mutant, target)`. -/
def where3 : List Bool → Vec → Vec → Vec
  | c :: cs, m :: ms, t :: ts => (if c then m else t) :: where3 cs ms ts
  | _, _, _ => []

/-- `DE.crossover_bin`: binomial crossover; when no coordinate is selected, force one
randomly chosen coordinate to the donor's value. -/
def crossover_bin {R} (rng : RNG R) (p : Params) (target mutant : Vec) (r : R) : Vec × R :=
  let (us, r1) := rng.random_vec p.dimensions r
  let cross_points := us.map (fun u => decide (u < p.crossover_prob))
  if cross_points.any id then (where3 cross_points mutant target, r1)
  else
    let (k, r2) := rng.integers p.dimensions r1
    (where3 (cross_points.set k true) mutant target, r2)

/-- The while loop of `DE.crossover_exp`: a fresh uniform draw is consumed each iteration
(including the failing one), and coordinate `(n+L) % dimensions` is copied from the donor
while the draw stays below `crossover_prob` and `L < dimensions`.  The fuel argument is
`dimensions - L`, so `fuel = 0` is exactly the `L < dimensions` exit (the draw preceding it
is still consumed, as the `and` in the source evaluates its left operand first). -/
def crossover_exp_loop {R} (rng : RNG R) (p : Params) (n : ℕ) :
    ℕ → Vec → Vec → ℕ → R → Vec × R
  | 0, target, _, _, r =>
    let (_, r1) := rng.random1 r
    (target, r1)
  | Nat.succ fuel, target, mutant, L, r =>
    let (u, r1) := rng.random1 r
    if u < p.crossover_prob then
      let idx := (n + L) % p.dimensions
      crossover_exp_loop rng p n fuel (target.set idx (mutant.getD idx 0)) mutant (L + 1) r1
    else (target, r1)

/-- `DE.crossover_exp`: exponential crossover starting at a uniform index.  In the source it
writes through the numpy row view `target = population[j]`; the caller accounts for that. -/
def crossover_exp {R} (rng : RNG R) (p : Params) (target mutant : Vec) (r : R) : Vec × R :=
  let (n, r1) := rng.integers p.dimensions r
  crossover_exp_loop rng p n p.dimensions target mutant 0 r1

/-- One iteration of the loop in `DE.selection`: evaluate the trial, do the one-vs-one
replacement at index `i` (ties replace), update age, update the incumbent with a strict
comparison (writing row views into `inc_config`/`inc_id`), and append to the trajectory
arrays. -/
def selectionStep (p : Params) (f : Obj) (s : S) (trial : Vec) (trial_id : ℤ) (i : ℕ) : S :=
  let fitness := (f trial).1
  let cost := (f trial).2
  let replace := fitness ≤ s.fitness.getD i ⊤
  let pop1 := if replace then s.population.set i trial else s.population
  let ids1 := if replace then s.population_ids.set i trial_id else s.population_ids
  let fit1 := if replace then s.fitness.set i fitness else s.fitness
  let age1 := if replace then s.age.set i p.max_age else s.age.set i (ageDec (s.age.getD i ⊤))
  let better := fit1.getD i ⊤ < s.inc_score
  { s with
    population := pop1, population_ids := ids1, fitness := fit1, age := age1,
    inc_score := if better then fit1.getD i ⊤ else s.inc_score,
    inc_config := if better then some i else s.inc_config,
    inc_id := if better then IncId.rowv i else s.inc_id,
    traj := s.traj ++ [if better then fit1.getD i ⊤ else s.inc_score],
    runtime := s.runtime ++ [cost],
    history := s.history ++ [(trial, fitness)] }

/-- The loop of `DE.selection` over the batched trials, indices counted from 0. -/
def selLoop (p : Params) (f : Obj) : List (Vec × ℤ) → ℕ → S → S
  | [], _, s => s
  | t :: ts, i, s => selLoop p f ts (i + 1) (selectionStep p f s t.1 t.2 i)

/-- `DE.selection` on a batch of announced trials. -/
def selection (p : Params) (f : Obj) (s : S) (trials : List (Vec × ℤ)) : S :=
  selLoop p f trials 0 s

/-- `DE.tell`: one-vs-one replacement at `target_idx` (ties replace), then the incumbent is
recomputed by a full `np.argmin` scan, then one entry is appended to each trajectory array.
No ask-bookkeeping is read or written. -/
def tell (p : Params) (s : S) (trial : Vec) (trial_id : ℤ) (i : ℕ) (fitness : Fit)
    (cost : ℚ) : S :=
  let replace := fitness ≤ s.fitness.getD i ⊤
  let pop1 := if replace then s.population.set i trial else s.population
  let ids1 := if replace then s.population_ids.set i trial_id else s.population_ids
  let fit1 := if replace then s.fitness.set i fitness else s.fitness
  let age1 := if replace then s.age.set i p.max_age else s.age.set i (ageDec (s.age.getD i ⊤))
  let b := argminIdx fit1
  { s with
    population := pop1, population_ids := ids1, fitness := fit1, age := age1,
    inc_score := fit1.getD b ⊤,
    inc_config := some b,
    inc_id := IncId.idv (ids1.getD b 0),
    traj := s.traj ++ [fit1.getD b ⊤],
    runtime := s.runtime ++ [cost],
    history := s.history ++ [(trial, fitness)] }

/-- The state produced by `DEBase.reset` on a fresh instance (population still `None`,
modelled as empty arrays guarded by the ask-surface flag). -/
def emptyS : S :=
  { population := [], population_ids := [], fitness := [], age := [],
    inc_score := ⊤, inc_config := none, inc_id := IncId.idv (-1),
    traj := [], runtime := [], history := [], next_id := 0 }

/-- One iteration of the evaluation loop in `DE.init_eval_pop`: set `fitness[i]`, update
the incumbent with a strict comparison, append to the trajectory arrays. -/
def evalInitStep (f : Obj) (s : S) (i : ℕ) : S :=
  let config := s.population.getD i []
  let config_id := s.population_ids.getD i 0
  let fitness := (f config).1
  let cost := (f config).2
  let fit1 := s.fitness.set i fitness
  let better := fit1.getD i ⊤ < s.inc_score
  { s with
    fitness := fit1,
    inc_score := if better then fit1.getD i ⊤ else s.inc_score,
    inc_config := if better then some i else s.inc_config,
    inc_id := if better then IncId.idv config_id else s.inc_id,
    traj := s.traj ++ [if better then fit1.getD i ⊤ else s.inc_score],
    runtime := s.runtime ++ [cost],
    history := s.history ++ [(config, fitness)] }

/-- `for i in range(start, start+cnt)` fold over the state. -/
def foldIdx (g : S → ℕ → S) (s : S) (start cnt : ℕ) : S :=
  match cnt with
  | 0 => s
  | Nat.succ k => foldIdx g (g s start) (start + 1) k

/-- `DE.init_eval_pop` (no-ConfigSpace branch): draw a uniform population, announce it,
initialize fitness to `inf` and ages to `max_age`; when `eval` is set run the evaluation
loop. -/
def init_eval_pop {R} (rng : RNG R) (p : Params) (f : Obj) (eval : Bool) (r : R) : S × R :=
  let (pop, r1) := rng.uniform_mat p.pop_size p.dimensions r
  let (ids, s1) := announce_population emptyS pop
  let s2 := { s1 with population := pop, population_ids := ids,
                      fitness := List.replicate p.pop_size ⊤,
                      age := List.replicate p.pop_size p.max_age }
  if eval then (foldIdx (fun s i => evalInitStep f s i) s2 0 p.pop_size, r1)
  else (s2, r1)

/-- The state the trial-construction loop reads and writes besides the RNG: the population
rows (mutated in place by exponential crossover and its boundary fix) and the repository id
counter.  The fitness array is read-only during the loop and is passed separately. -/
structure BuildSt where
  bpop : List Vec
  bnid : ℤ
deriving DecidableEq

/-- One iteration of the trial-construction loop shared by `DE.evolve_generation` and
`DE.ask`: mutate (reading the current population), cross over, boundary-fix, announce.
With exponential crossover the writes go through the numpy row view
`target = population[j]`, so the row ends up holding the finished trial; with binomial
crossover `np.where` allocates a fresh offspring and the population is untouched. -/
def buildTrial {R} (rng : RNG R) (p : Params) (fit : List Fit) (bestIdx : Option ℕ)
    (b : BuildSt) (j : ℕ) (r : R) : Option ((Vec × ℤ) × BuildSt × R) :=
  let target := b.bpop.getD j []
  let bestArg := bestIdx.map (fun i => b.bpop.getD i [])
  match mutation rng p b.bpop fit (some target) bestArg none r with
  | none => none
  | some (donor, r1) =>
    if p.crossover_strategy = "bin" then
      let (t1, r2) := crossover_bin rng p target donor r1
      let (t2, r3) := boundary_check rng p t1 r2
      some ((t2, b.bnid), { b with bnid := b.bnid + 1 }, r3)
    else if p.crossover_strategy = "exp" then
      let (t1, r2) := crossover_exp rng p target donor r1
      let (t2, r3) := boundary_check rng p t1 r2
      some ((t2, b.bnid), { bpop := b.bpop.set j t2, bnid := b.bnid + 1 }, r3)
    else none

/-- The trial-construction loop: `j` is the next target index, the next argument the
remaining count. -/
def buildLoop {R} (rng : RNG R) (p : Params) (fit : List Fit) (bestIdx : Option ℕ) :
    ℕ → ℕ → BuildSt → List (Vec × ℤ) → R → Option (List (Vec × ℤ) × BuildSt × R)
  | _, 0, b, acc, r => some (acc, b, r)
  | j, Nat.succ k, b, acc, r =>
    match buildTrial rng p fit bestIdx b j r with
    | none => none
    | some (t, b1, r1) => buildLoop rng p fit bestIdx (j + 1) k b1 (acc ++ [t]) r1

/-- Build the `pop_size` trials of one generation. -/
def build_trials {R} (rng : RNG R) (p : Params) (pop : List Vec) (fit : List Fit)
    (nid : ℤ) (bestIdx : Option ℕ) (r : R) : Option (List (Vec × ℤ) × BuildSt × R) :=
  buildLoop rng p fit bestIdx 0 p.pop_size { bpop := pop, bnid := nid } [] r

/-- `DE.evolve_generation`: build the batch of trials (with `best=None`), then run
selection. -/
def evolve_generation {R} (rng : RNG R) (p : Params) (f : Obj) (s : S) (r : R) :
    Option (S × R) :=
  match build_trials rng p s.population s.fitness s.next_id none r with
  | none => none
  | some (trials, b, r1) =>
    some (selection p f { s with population := b.bpop, next_id := b.bnid } trials, r1)

/-- The generation loop of `DE.run`. -/
def runGens {R} (rng : RNG R) (p : Params) (f : Obj) : ℕ → S → R → Option (S × R)
  | 0, s, r => some (s, r)
  | Nat.succ g, s, r =>
    match evolve_generation rng p f s r with
    | none => none
    | some (s1, r1) => runGens rng p f g s1 r1

/-- `DE.run(generations=G)` on a fresh instance: reset, `init_eval_pop`, then `G`
generations. -/
def DErun {R} (rng : RNG R) (p : Params) (f : Obj) (G : ℕ) (r : R) : Option (S × R) :=
  let (s0, r0) := init_eval_pop rng p f true r
  runGens rng p f G s0 r0

/-- Ask-surface bookkeeping of a `DE` instance: the lazily initialized attributes of
`DE.ask` with their first-touch defaults, plus the never-written `_ask_queue`. -/
structure AskSt where
  core : S
  pop_ready : Bool
  initFlag : Bool
  ask_counter : ℕ
  trials : List Vec
  trial_ids : List ℤ
  cur_trial_idx : ℕ
  ask_queue : List Unit
deriving DecidableEq

/-- Failures `DE.ask` can raise: the outstanding-ask assertion, or the unknown-strategy
error surfacing from mutation/crossover dispatch. -/
inductive AskErr where
  | outstanding
  | badStrategy
deriving DecidableEq

/-- A freshly constructed `DE` instance as seen by the ask surface. -/
def freshAsk : AskSt :=
  { core := emptyS, pop_ready := false, initFlag := false, ask_counter := 0,
    trials := [], trial_ids := [], cur_trial_idx := 0, ask_queue := [] }

/-- `DE.ask`: assert no outstanding ask, lazily initialize the population without
evaluating, then either hand out the next unevaluated initial individual (init phase) or
hand out the next trial, rebuilding the trial buffer (with `best=self.inc_config`) when it
is exhausted. -/
def ask {R} (rng : RNG R) (p : Params) (f : Obj) (a : AskSt) (r : R) :
    Except AskErr ((Vec × ℤ × ℕ) × AskSt × R) :=
  if a.ask_queue.length ≠ 0 then .error .outstanding else
  let ar1 : AskSt × R :=
    if ¬ a.pop_ready then
      let (s, r2) := init_eval_pop rng p f false r
      ({ a with core := s, pop_ready := true, initFlag := true }, r2)
    else (a, r)
  let a1 := ar1.1
  let r1 := ar1.2
  if a1.initFlag then
    let target := a1.ask_counter % p.pop_size
    let trial := a1.core.population.getD target []
    let trial_id := a1.core.population_ids.getD target 0
    let c1 := a1.ask_counter + 1
    let a2 := { a1 with ask_counter := c1,
                        initFlag := if p.pop_size ≤ c1 then false else true }
    .ok ((trial, trial_id, target), a2, r1)
  else if a1.trials.length = 0 ∨ a1.trials.length ≤ a1.cur_trial_idx then
    match build_trials rng p a1.core.population a1.core.fitness a1.core.next_id
        a1.core.inc_config r1 with
    | none => .error .badStrategy
    | some (ts, b, r2) =>
      let a2 := { a1 with core := { a1.core with population := b.bpop, next_id := b.bnid },
                          trials := ts.map Prod.fst,
                          trial_ids := ts.map Prod.snd, cur_trial_idx := 0 }
      let trial := a2.trials.getD a2.cur_trial_idx []
      let trial_id := a2.trial_ids.getD a2.cur_trial_idx 0
      let a3 := { a2 with cur_trial_idx := a2.cur_trial_idx + 1 }
      .ok ((trial, trial_id, a2.cur_trial_idx), a3, r2)
  else
    let trial := a1.trials.getD a1.cur_trial_idx []
    let trial_id := a1.trial_ids.getD a1.cur_trial_idx 0
    let a2 := { a1 with cur_trial_idx := a1.cur_trial_idx + 1 }
    .ok ((trial, trial_id, a1.cur_trial_idx), a2, r1)

/-- `DE.tell` viewed from the ask surface: it is a plain `DE` method and touches none of
the ask bookkeeping (in particular it never pops `_ask_queue`). -/
def tellA (p : Params) (a : AskSt) (trial : Vec) (trial_id : ℤ) (i : ℕ) (fitness : Fit)
    (cost : ℚ) : AskSt :=
  { a with core := tell p a.core trial trial_id i fitness cost }

/-- `k` ask/tell pairs in logical order, each tell passing the objective's result for the
asked trial. -/
def askTellSteps {R} (rng : RNG R) (p : Params) (f : Obj) :
    ℕ → AskSt → R → Except AskErr (AskSt × R)
  | 0, a, r => .ok (a, r)
  | Nat.succ k, a, r =>
    match ask rng p f a r with
    | .error e => .error e
    | .ok ((trial, trial_id, target), a1, r1) =>
      askTellSteps rng p f k (tellA p a1 trial trial_id target (f trial).1 (f trial).2) r1

/-- Driving a fresh instance by `pop_size · (G+1)` ask/tell pairs. -/
def askTellRun {R} (rng : RNG R) (p : Params) (f : Obj) (G : ℕ) (r : R) :
    Except AskErr (AskSt × R) :=
  askTellSteps rng p f (p.pop_size * (G + 1)) freshAsk r

/-- The seven recognised mutation-strategy names. -/
def validMutation (m : String) : Prop :=
  m ∈ ["rand1", "rand2", "rand2dir", "best1", "best2", "currenttobest1", "randtobest1"]

/-- The two recognised crossover-strategy names. -/
def validCrossover (c : String) : Prop := c ∈ ["bin", "exp"]

/-- A strategy pair every dispatch accepts. -/
def ValidStrategy (p : Params) : Prop :=
  validMutation p.mutation_strategy ∧ validCrossover p.crossover_strategy

instance : DecidablePred validMutation := fun m => by unfold validMutation; infer_instance

instance : DecidablePred validCrossover := fun c => by unfold validCrossover; infer_instance

instance (p : Params) : Decidable (ValidStrategy p) := by unfold ValidStrategy; infer_instance

/-- `DEBase._set_min_pop_size`: minimum distinct-parent count per mutation strategy. -/
def setMinPopSize (ms : String) : ℕ :=
  if ms ∈ (["rand1", "rand2dir", "randtobest1"] : List String) then 3
  else if ms ∈ (["currenttobest1", "best1"] : List String) then 2
  else if ms ∈ (["best2"] : List String) then 4
  else if ms ∈ (["rand2"] : List String) then 5
  else 1

/-- The removal loop of `AsyncDE._sample_population`: drop the first individual whose
vector equals the target (`all(target == pop)`), leaving the pool unchanged when no entry
matches. -/
def removeFirst (target : Vec) : List Vec → List Vec
  | [] => []
  | x :: xs => if x = target then xs else x :: removeFirst target xs

/-- The sampling pool `AsyncDE._sample_population` draws from, before the final `choice`:
pick `alt_pop` or the own population, remove the target only when the pool has more than
one member, then pad with freshly sampled random individuals up to `_min_pop_size` when the
pool underflowed. -/
def asyncPool {R} (rng : RNG R) (p : Params) (ownPop : List Vec)
    (alt_pop : Option (List Vec)) (target : Option Vec) (minPop : ℕ) (r : R) :
    List Vec × R :=
  let pool0 := match alt_pop with
    | some ap => ap
    | none => ownPop
  let pool1 := match target with
    | some t => if 1 < pool0.length then removeFirst t pool0 else pool0
    | none => pool0
  if pool1.length < minPop then
    let filler := minPop - pool1.length
    let (new_pop, r1) := rng.uniform_mat filler p.dimensions r
    (pool1 ++ new_pop, r1)
  else (pool1, r)

/-- `AsyncDE._sample_population`: draw `size` indices without replacement from the prepared
pool and gather rows. -/
def asyncSamplePopulation {R} (rng : RNG R) (p : Params) (ownPop : List Vec)
    (alt_pop : Option (List Vec)) (target : Option Vec) (minPop : ℕ) (size : ℕ) (r : R) :
    List Vec × R :=
  let (pool, r1) := asyncPool rng p ownPop alt_pop target minPop r
  let (sel, r2) := rng.choice pool.length size r1
  (sel.map (fun i => pool.getD i []), r2)

/-- `AsyncDE.mutation`: same dispatch as `DE.mutation` but sampling through
`_sample_population` with the current individual excluded as target. -/
def asyncMutation {R} (rng : RNG R) (p : Params) (pop : List Vec) (fit : List Fit)
    (current : Option Vec) (best : Option Vec) (alt_pop : Option (List Vec)) (r : R) :
    Option (Vec × R) :=
  let minPop := setMinPopSize p.mutation_strategy
  if p.mutation_strategy = "rand1" then
    let (s, r1) := asyncSamplePopulation rng p pop alt_pop current minPop 3 r
    some (mutation_rand1 p.mutation_factor (s.getD 0 []) (s.getD 1 []) (s.getD 2 []), r1)
  else if p.mutation_strategy = "rand2" then
    let (s, r1) := asyncSamplePopulation rng p pop alt_pop current minPop 5 r
    some (mutation_rand2 p.mutation_factor (s.getD 0 []) (s.getD 1 []) (s.getD 2 [])
      (s.getD 3 []) (s.getD 4 []), r1)
  else if p.mutation_strategy = "rand2dir" then
    let (s, r1) := asyncSamplePopulation rng p pop alt_pop current minPop 3 r
    some (mutation_rand2dir p.mutation_factor (s.getD 0 []) (s.getD 1 []) (s.getD 2 []), r1)
  else if p.mutation_strategy = "best1" then
    let (s, r1) := asyncSamplePopulation rng p pop alt_pop current minPop 2 r
    some (mutation_rand1 p.mutation_factor (getBest pop fit best) (s.getD 0 [])
      (s.getD 1 []), r1)
  else if p.mutation_strategy = "best2" then
    let (s, r1) := asyncSamplePopulation rng p pop alt_pop current minPop 4 r
    some (mutation_rand2 p.mutation_factor (getBest pop fit best) (s.getD 0 []) (s.getD 1 [])
      (s.getD 2 []) (s.getD 3 []), r1)
  else if p.mutation_strategy = "currenttobest1" then
    match current with
    | none => none
    | some cur =>
      let (s, r1) := asyncSamplePopulation rng p pop alt_pop current minPop 2 r
      some (mutation_currenttobest1 p.mutation_factor cur (getBest pop fit best)
        (s.getD 0 []) (s.getD 1 []), r1)
  else if p.mutation_strategy = "randtobest1" then
    let (s, r1) := asyncSamplePopulation rng p pop alt_pop current minPop 3 r
    some (mutation_currenttobest1 p.mutation_factor (s.getD 0 []) (getBest pop fit best)
      (s.getD 1 []) (s.getD 2 []), r1)
  else none

/-- Python `str.split(sep)` for a one-character separator, over the character list. -/
def splitChars (sep : Char) : List Char → List (List Char)
  | [] => [[]]
  | c :: cs =>
    let rest := splitChars sep cs
    if c = sep then [] :: rest
    else
      match rest with
      | [] => [[c]]
      | w :: ws => (c :: w) :: ws

/-- Python `s.split('_')` as a list of strings. -/
def pySplit (s : String) (sep : Char) : List String :=
  (splitChars sep s.toList).map (fun w => String.mk w)

/-- The strategy-splitting prologue of `DE.__init__`: `strategy.split('_')[0]` and `[1]`.
A non-null name without at least two `_`-separated parts raises `IndexError` at
construction; any two-part name is accepted unchecked. -/
def strategyParse (strategy : Option String) : Except String (Option String × Option String) :=
  match strategy with
  | none => .ok (none, none)
  | some s =>
    match pySplit s '_' with
    | p0 :: p1 :: _ => .ok (some p0, some p1)
    | _ => .error "IndexError"

/-- `DE.__init__` as far as failure behaviour is concerned: the objective is stored
unchecked and only the strategy string is touched. -/
def DEConstruct (strategy : Option String) (f : Option Obj) :
    Except String (Option String × Option String × Option Obj) :=
  match strategyParse strategy with
  | .error e => .error e
  | .ok (ms, cs) => .ok (ms, cs, f)

/-- `AsyncDE.__init__`: the `DE` prologue followed by the `async_strategy` membership
assertion. -/
def AsyncDEConstruct (strategy : Option String) (f : Option Obj) (async_strategy : String) :
    Except String (Option String × Option String × Option Obj) :=
  match DEConstruct strategy f with
  | .error e => .error e
  | .ok x =>
    if async_strategy ∈ (["immediate", "random", "worst", "deferred"] : List String)
    then .ok x else .error "AssertionError"

/-- The head of `DE.f_objective`: raises `NotImplementedError` on the first call when no
objective was passed. -/
def fObjectiveCall (f : Option Obj) (x : Vec) : Except String (Fit × ℚ) :=
  match f with
  | none => .error "NotImplementedError"
  | some g => .ok (g x)

/-- The unknown-strategy behaviour of `DE.mutation` at its first call, for a strategy name
that parsed into two parts but matches no dispatch branch (`mutant` is never assigned, so
Python raises `UnboundLocalError`). -/
def mutationCallFails (p : Params) : Prop :=
  ∀ (R : Type) (rng : RNG R) pop fit current best alt_pop (r : R),
    mutation rng p pop fit current best alt_pop r = none

/-- Hyperparameter kinds of the ConfigSpace bridge.  Ordinal/Categorical values are drawn
from a finite list of labels (modelled as integers); numeric bounds are machine floats,
modelled as rationals. -/
inductive Hyper where
  | ordinal (seq : List ℤ)
  | categorical (choices : List ℤ)
  | const (value : ℤ)
  | uniformFloat (lower upper : ℚ) (log : Bool)
  | uniformInt (lower upper : ℚ) (log : Bool)

/-- A configuration value: an integer (ordinal/categorical label, constant, uniform
integer) or a machine float (a rational). -/
inductive HVal where
  | ival (n : ℤ)
  | fval (q : ℚ)
deriving DecidableEq

/-- A decoded value of `vector_to_configspace`: uniform floats decode through `exp`, so the
result lives in the reals. -/
inductive DVal where
  | ival (n : ℤ)
  | rval (x : ℝ)

/-- One coordinate of `DEBase.configspace_to_vector`: Ordinal/Categorical encode as
`index / L`, Constants as `0`, uniform kinds linearly or through logs.  The catch-all `0`
covers type-mismatched values excluded by legality. -/
noncomputable def encodeHyper : Hyper → HVal → ℝ
  | .ordinal seq, .ival n => (seq.indexOf n : ℝ) / (seq.length : ℝ)
  | .categorical cs, .ival n => (cs.indexOf n : ℝ) / (cs.length : ℝ)
  | .const _, _ => 0
  | .uniformFloat l u lg, .fval q =>
      if lg then Real.log ((q : ℝ) / (l : ℝ)) / Real.log ((u : ℝ) / (l : ℝ))
      else (((q - l) / (u - l) : ℚ) : ℝ)
  | .uniformInt l u lg, .ival n =>
      if lg then Real.log ((n : ℝ) / (l : ℝ)) / Real.log ((u : ℝ) / (l : ℝ))
      else ((((n : ℚ) - l) / (u - l) : ℚ) : ℝ)
  | _, _ => 0

open Classical in
/-- Index selection in the Ordinal/Categorical branch of `vector_to_configspace`: the last
range boundary `j/L` with `j/L ≤ v` (`np.where((vector[i] < ranges) == False)[0][-1]` over
`ranges = np.arange(0, 1, 1/L)`). -/
noncomputable def rangeIdx (L : ℕ) (v : ℝ) : ℕ :=
  Nat.findGreatest (fun j => (j : ℝ) / (L : ℝ) ≤ v) (L - 1)

open Classical in
/-- `int(np.round(x))`: round half to even. -/
noncomputable def npRound (x : ℝ) : ℤ :=
  if x - ⌊x⌋ < 1 / 2 then ⌊x⌋
  else if (1 : ℝ) / 2 < x - ⌊x⌋ then ⌊x⌋ + 1
  else if Even ⌊x⌋ then ⌊x⌋ else ⌊x⌋ + 1

/-- One coordinate of `DEBase.vector_to_configspace`. -/
noncomputable def decodeHyper : Hyper → ℝ → DVal
  | .ordinal seq, v => .ival (seq.getD (rangeIdx seq.length v) 0)
  | .categorical cs, v => .ival (cs.getD (rangeIdx cs.length v) 0)
  | .const c, _ => .ival c
  | .uniformFloat l u lg, v =>
      .rval (if lg then Real.exp (Real.log (l : ℝ) + v * (Real.log (u : ℝ) - Real.log (l : ℝ)))
             else (l : ℝ) + ((u : ℝ) - (l : ℝ)) * v)
  | .uniformInt l u lg, v =>
      .ival (npRound
        (if lg then Real.exp (Real.log (l : ℝ) + v * (Real.log (u : ℝ) - Real.log (l : ℝ)))
         else (l : ℝ) + ((u : ℝ) - (l : ℝ)) * v))

/-- Well-formedness of a hyperparameter definition (nonempty label lists, ordered bounds,
positive lower bound under log scaling), as ConfigSpace enforces at definition time. -/
def wfHyper : Hyper → Prop
  | .ordinal seq => seq ≠ []
  | .categorical cs => cs ≠ []
  | .const _ => True
  | .uniformFloat l u lg => l < u ∧ (lg = true → 0 < l)
  | .uniformInt l u lg => l < u ∧ (lg = true → 0 < l)

/-- A legal value of a hyperparameter. -/
def legalVal : Hyper → HVal → Prop
  | .ordinal seq, .ival n => n ∈ seq
  | .categorical cs, .ival n => n ∈ cs
  | .const c, .ival n => n = c
  | .uniformFloat l u _, .fval q => l ≤ q ∧ q ≤ u
  | .uniformInt l u _, .ival n => l ≤ (n : ℚ) ∧ (n : ℚ) ≤ u
  | _, _ => False

instance (h : Hyper) : Decidable (wfHyper h) := by
  cases h <;> unfold wfHyper <;> infer_instance

instance (h : Hyper) (v : HVal) : Decidable (legalVal h v) := by
  cases h <;> cases v <;> unfold legalVal <;> infer_instance

/-- Exact agreement between a decoded and an original value. -/
def exactEq (d : DVal) (v : HVal) : Prop :=
  match d, v with
  | .ival m, .ival n => m = n
  | .rval x, .fval q => x = (q : ℝ)
  | _, _ => False

/-- Agreement within the claim's 1e-9 tolerance. -/
def tolClose (d : DVal) (v : HVal) : Prop :=
  match d, v with
  | .ival m, .ival n => |(m : ℝ) - (n : ℝ)| ≤ 1 / 10 ^ 9
  | .rval x, .fval q => |x - (q : ℝ)| ≤ 1 / 10 ^ 9
  | _, _ => False

/-- The round-trip property in the claim's shape: exact on Ordinal, Categorical and
Constant, within 1e-9 on UniformFloat/UniformInteger. -/
def roundtripClaim (h : Hyper) (v : HVal) : Prop :=
  match h with
  | .ordinal _ => exactEq (decodeHyper h (encodeHyper h v)) v
  | .categorical _ => exactEq (decodeHyper h (encodeHyper h v)) v
  | .const _ => exactEq (decodeHyper h (encodeHyper h v)) v
  | .uniformFloat _ _ _ => tolClose (decodeHyper h (encodeHyper h v)) v
  | .uniformInt _ _ _ => tolClose (decodeHyper h (encodeHyper h v)) v

/-- A ConfigurationSpace without conditions: an ordered sequence of hyperparameters. -/
abbrev Space := List Hyper

/-- A configuration: one value per hyperparameter. -/
abbrev Config := List HVal

/-- `DEBase.configspace_to_vector` over a whole configuration. -/
noncomputable def configspace_to_vector (sp : Space) (c : Config) : List ℝ :=
  List.zipWith encodeHyper sp c

/-- `DEBase.vector_to_configspace` over a whole vector. -/
noncomputable def vector_to_configspace (sp : Space) (v : List ℝ) : List DVal :=
  List.zipWith decodeHyper sp v

/-- A concrete deterministic RNG used in witnesses and counterexamples: the state counts
the operations performed; `choice` returns the first indices, numeric draws fixed values. -/
def stubRNG : RNG ℕ where
  choice := fun _ k r => (List.range k, r + 1)
  random_vec := fun d r => (List.replicate d (0 : ℚ), r + 1)
  integers := fun _ r => (0, r + 1)
  random1 := fun r => ((0 : ℚ), r + 1)
  uniform_vec := fun k r => (List.replicate k (1 : ℚ), r + 1)
  uniform_mat := fun n d r => (List.replicate n (List.replicate d (0 : ℚ)), r + 1)
  uniform_mat_len := fun n d r => by simp

/-- Fixed concrete parameters for concrete evaluations: `rand1_bin`, three individuals in
one dimension. -/
def pFix : Params :=
  { pop_size := 3, dimensions := 1, mutation_factor := 1/2, crossover_prob := 1/2,
    mutation_strategy := "rand1", crossover_strategy := "bin", max_age := ⊤,
    fix_type := "random" }

/-- A small initialized state: three one-dimensional individuals with known fitness. -/
def sFix : S :=
  { population := [[0], [1], [2]], population_ids := [0, 1, 2],
    fitness := [((5 : ℚ) : Fit), ((6 : ℚ) : Fit), ((7 : ℚ) : Fit)],
    age := [⊤, ⊤, ⊤], inc_score := ((5 : ℚ) : Fit), inc_config := some 0,
    inc_id := IncId.idv 0, traj := [], runtime := [], history := [], next_id := 3 }

/-- Objective returning the first coordinate as fitness with unit cost. -/
def fHead : Obj := fun v => (((v.getD 0 0 : ℚ) : Fit), 1)

/-- A concrete ask-surface state wrapping `sFix`, with a stale nonempty trial buffer. -/
def aFix : AskSt :=
  { core := sFix, pop_ready := true, initFlag := false, ask_counter := 3,
    trials := [[0]], trial_ids := [9], cur_trial_idx := 1, ask_queue := [] }

/-- Parameters for the exponential-crossover frame counterexample: `rand1_exp` with
`F = 1`, `crossover_prob = 1`. -/
def p6 : Params :=
  { pop_size := 3, dimensions := 1, mutation_factor := 1, crossover_prob := 1,
    mutation_strategy := "rand1", crossover_strategy := "exp", max_age := ⊤,
    fix_type := "random" }

/-- Initial state for the exponential-crossover frame counterexample. -/
def s6 : S :=
  { population := [[2], [1], [1]], population_ids := [0, 1, 2],
    fitness := [((0 : ℚ) : Fit), ((0 : ℚ) : Fit), ((0 : ℚ) : Fit)],
    age := [((5 : ℤ) : AgeV), ((5 : ℤ) : AgeV), ((5 : ℤ) : AgeV)],
    inc_score := ((0 : ℚ) : Fit), inc_config := some 0, inc_id := IncId.idv 0,
    traj := [], runtime := [], history := [], next_id := 3 }

/-- A constant objective: every trial evaluates to fitness 10, cost 1. -/
def f6 : Obj := fun _ => (((10 : ℚ) : Fit), 1)

/-- The operations a client can apply to an initialized `DE` state within a single run:
one `DE.selection` iteration (evaluating through the objective) or one `DE.tell` call with
an arbitrary result. -/
inductive OpStep where
  | sel (trial : Vec) (trial_id : ℤ) (i : ℕ)
  | tl (trial : Vec) (trial_id : ℤ) (i : ℕ) (fitness : Fit) (cost : ℚ)

/-- Apply one operation. -/
def applyOp (p : Params) (f : Obj) (s : S) : OpStep → S
  | .sel t tid i => selectionStep p f s t tid i
  | .tl t tid i fv cv => tell p s t tid i fv cv

/-- Apply a sequence of operations in order. -/
def applyOps (p : Params) (f : Obj) : List OpStep → S → S
  | [], s => s
  | o :: os, s => applyOps p f os (applyOp p f s o)

/-- Invariant carried along a run: the incumbent equals the population minimum, the
trajectory is non-increasing, and the last trajectory entry is the incumbent. -/
def TrajInv (s : S) : Prop :=
  s.inc_score = minFit s.fitness ∧
  List.Chain' (fun a b => b ≤ a) s.traj ∧
  (s.traj = [] ∨ s.traj.getLast? = some s.inc_score)

/-- Field-wise agreement between the run-mode and the ask/tell-mode optimizer state: all
fields except the incumbent vector and incumbent id (those differ because `selection`
stores a row view in `inc_id` while `tell` stores the integer id). -/
def Agree (s t : S) : Prop :=
  s.population = t.population ∧ s.population_ids = t.population_ids ∧
  s.fitness = t.fitness ∧ s.age = t.age ∧ s.inc_score = t.inc_score ∧
  s.traj = t.traj ∧ s.runtime = t.runtime ∧ s.history = t.history ∧ s.next_id = t.next_id

/-- Ask-surface state in the init phase after `k` completed ask/tell pairs. -/
def mkInitAsk (p : Params) (t : S) (k : ℕ) : AskSt :=
  { core := t, pop_ready := true,
    initFlag := if p.pop_size ≤ k then false else true,
    ask_counter := k, trials := [], trial_ids := [], cur_trial_idx := 0, ask_queue := [] }

/-- Ask-surface state in the generation phase: the built trials `full` with the first `k`
of them handed out and told. -/
def mkGenAsk (p : Params) (t : S) (full : List (Vec × ℤ)) (k cnt : ℕ) : AskSt :=
  { core := t, pop_ready := true, initFlag := false, ask_counter := cnt,
    trials := full.map Prod.fst, trial_ids := full.map Prod.snd, cur_trial_idx := k,
    ask_queue := [] }

section ListLemmas

variable {α : Type _}

theorem set_getD_self (l : List α) (i : ℕ) (d : α) : l.set i (l.getD i d) = l := by
  induction l generalizing i with
  | nil => simp
  | cons x xs ih =>
    cases i with
    | zero => simp
    | succ k => simpa using ih k

theorem set_oob (l : List α) (i : ℕ) (v : α) (h : l.length ≤ i) : l.set i v = l := by
  induction l generalizing i with
  | nil => simp
  | cons x xs ih =>
    cases i with
    | zero => simp at h
    | succ k => simpa using ih k (by simpa using h)

theorem getD_oob (l : List α) (i : ℕ) (d : α) (h : l.length ≤ i) : l.getD i d = d := by
  induction l generalizing i with
  | nil => simp
  | cons x xs ih =>
    cases i with
    | zero => simp at h
    | succ k => simpa using ih k (by simpa using h)

theorem getD_set_self (l : List α) (i : ℕ) (v d : α) (h : i < l.length) :
    (l.set i v).getD i d = v := by
  induction l generalizing i with
  | nil => simp at h
  | cons x xs ih =>
    cases i with
    | zero => simp
    | succ k => simpa using ih k (by simpa using h)

theorem getD_set_ne (l : List α) (i j : ℕ) (v d : α) (h : i ≠ j) :
    (l.set i v).getD j d = l.getD j d := by
  induction l generalizing i j with
  | nil => simp
  | cons x xs ih =>
    cases i with
    | zero =>
      cases j with
      | zero => exact absurd rfl h
      | succ m => simp
    | succ k =>
      cases j with
      | zero => simp
      | succ m => simpa using ih k m (by omega)

end ListLemmas

theorem minFit_cons (x : Fit) (xs : List Fit) : minFit (x :: xs) = min x (minFit xs) := rfl

theorem minFit_le_getD (l : List Fit) (i : ℕ) : minFit l ≤ l.getD i ⊤ := by
  induction l generalizing i with
  | nil => simp [minFit]
  | cons x xs ih =>
    cases i with
    | zero => simpa [minFit_cons] using min_le_left _ _
    | succ k =>
      calc minFit (x :: xs) ≤ minFit xs := by simpa [minFit_cons] using min_le_right _ _
        _ ≤ xs.getD k ⊤ := ih k
        _ = (x :: xs).getD (k + 1) ⊤ := by simp

theorem getD_argminIdx (l : List Fit) : l.getD (argminIdx l) ⊤ = minFit l := by
  induction l with
  | nil => simp [argminIdx, minFit]
  | cons x xs ih =>
    rw [argminIdx]
    by_cases h : xs.getD (argminIdx xs) ⊤ < x
    · rw [if_pos h]
      have : (x :: xs).getD (argminIdx xs + 1) ⊤ = xs.getD (argminIdx xs) ⊤ := by simp
      rw [this, ih, minFit_cons]
      rw [ih] at h
      exact (min_eq_right (le_of_lt h)).symm
    · rw [if_neg h]
      rw [ih] at h
      have hx : x ≤ minFit xs := le_of_not_lt h
      simp [minFit_cons, min_eq_left hx]

theorem minFit_set (l : List Fit) (i : ℕ) (v : Fit) (hi : i < l.length)
    (hv : v ≤ l.getD i ⊤) : minFit (l.set i v) = min (minFit l) v := by
  induction l generalizing i with
  | nil => simp at hi
  | cons x xs ih =>
    cases i with
    | zero =>
      simp only [List.getD_cons_zero] at hv
      simp only [List.set]
      rw [minFit_cons, minFit_cons]
      rcases le_total v (minFit xs) with h2 | h2
      · rw [min_eq_left h2, min_eq_right (le_min hv h2)]
      · rw [min_eq_right h2, min_eq_right (le_trans h2 hv), min_eq_left h2]
    | succ k =>
      simp only [List.getD_cons_succ] at hv
      simp only [List.set]
      rw [minFit_cons, minFit_cons, ih k (by simpa using hi) hv, min_assoc]

theorem if_lt_eq_min (a b : Fit) : (if a < b then a else b) = min a b := by
  by_cases h : a < b
  · rw [if_pos h, min_eq_left (le_of_lt h)]
  · rw [if_neg h, min_eq_right (le_of_not_lt h)]

/-- The state after one `DE.selection` iteration: the incumbent equals the population
minimum again, is no larger than before, and the new trajectory entry is the new
incumbent. -/
theorem selectionStep_minInv (p : Params) (f : Obj) (s : S) (t : Vec) (tid : ℤ) (i : ℕ)
    (h : s.inc_score = minFit s.fitness) :
    (selectionStep p f s t tid i).inc_score = minFit (selectionStep p f s t tid i).fitness ∧
    (selectionStep p f s t tid i).inc_score ≤ s.inc_score ∧
    (selectionStep p f s t tid i).traj =
      s.traj ++ [(selectionStep p f s t tid i).inc_score] := by
  unfold selectionStep
  dsimp only
  by_cases hrep : (f t).1 ≤ s.fitness.getD i ⊤
  · rw [if_pos hrep]
    by_cases hi : i < s.fitness.length
    · have hset : (s.fitness.set i (f t).1).getD i ⊤ = (f t).1 := getD_set_self _ _ _ _ hi
      have hmin : minFit (s.fitness.set i (f t).1) = min (minFit s.fitness) (f t).1 :=
        minFit_set _ _ _ hi hrep
      rw [hset, hmin, if_lt_eq_min, h]
      exact ⟨min_comm _ _, min_le_right _ _, rfl⟩
    · have hoob : s.fitness.set i (f t).1 = s.fitness := set_oob _ _ _ (by omega)
      have hgd : s.fitness.getD i ⊤ = ⊤ := getD_oob _ _ _ (by omega)
      rw [hoob, hgd]
      have : ¬ (⊤ : Fit) < s.inc_score := not_top_lt
      rw [if_neg this]
      exact ⟨h, le_refl _, rfl⟩
  · rw [if_neg hrep]
    have hle : minFit s.fitness ≤ s.fitness.getD i ⊤ := minFit_le_getD _ _
    have : ¬ s.fitness.getD i ⊤ < s.inc_score := by
      rw [h]
      exact not_lt.mpr hle
    rw [if_neg this]
    exact ⟨h, le_refl _, rfl⟩

/-- The state after `DE.tell`: the incumbent is recomputed as the population minimum, it
does not increase provided it was at least the population minimum, and the new trajectory
entry is the new incumbent. -/
theorem tell_minInv (p : Params) (s : S) (t : Vec) (tid : ℤ) (i : ℕ) (v : Fit) (c : ℚ)
    (h : minFit s.fitness ≤ s.inc_score) :
    (tell p s t tid i v c).inc_score = minFit (tell p s t tid i v c).fitness ∧
    (tell p s t tid i v c).inc_score ≤ s.inc_score ∧
    (tell p s t tid i v c).traj = s.traj ++ [(tell p s t tid i v c).inc_score] := by
  unfold tell
  dsimp only
  refine ⟨getD_argminIdx _, ?_, rfl⟩
  rw [getD_argminIdx]
  by_cases hrep : v ≤ s.fitness.getD i ⊤
  · rw [if_pos hrep]
    by_cases hi : i < s.fitness.length
    · rw [minFit_set _ _ _ hi hrep]
      exact le_trans (min_le_left _ _) h
    · rw [set_oob _ _ _ (by omega)]
      exact h
  · rw [if_neg hrep]
    exact h

/-- The state after one evaluation of the `init_eval_pop` loop at a not-yet-evaluated
index. -/
theorem evalInitStep_minInv (f : Obj) (s : S) (i : ℕ)
    (h : s.inc_score = minFit s.fitness) (hT : s.fitness.getD i ⊤ = ⊤) :
    (evalInitStep f s i).inc_score = minFit (evalInitStep f s i).fitness ∧
    (evalInitStep f s i).inc_score ≤ s.inc_score ∧
    (evalInitStep f s i).traj = s.traj ++ [(evalInitStep f s i).inc_score] := by
  unfold evalInitStep
  dsimp only
  by_cases hi : i < s.fitness.length
  · have hset : (s.fitness.set i (f (s.population.getD i [])).1).getD i ⊤ =
        (f (s.population.getD i [])).1 := getD_set_self _ _ _ _ hi
    have hmin : minFit (s.fitness.set i (f (s.population.getD i [])).1) =
        min (minFit s.fitness) (f (s.population.getD i [])).1 :=
      minFit_set _ _ _ hi (by rw [hT]; exact le_top)
    rw [hset, hmin, if_lt_eq_min, h]
    exact ⟨min_comm _ _, min_le_right _ _, rfl⟩
  · have hoob : s.fitness.set i (f (s.population.getD i [])).1 = s.fitness :=
      set_oob _ _ _ (by omega)
    rw [hoob, hT]
    have : ¬ (⊤ : Fit) < s.inc_score := not_top_lt
    rw [if_neg this]
    exact ⟨h, le_refl _, rfl⟩

theorem chain_snoc {α : Type _} (Rel : α → α → Prop) (l : List α) (b : α)
    (hc : List.Chain' Rel l) (hl : ∀ x ∈ l.getLast?, Rel x b) :
    List.Chain' Rel (l ++ [b]) := by
  rw [List.chain'_append]
  refine ⟨hc, List.chain'_singleton b, ?_⟩
  intro x hx y hy
  simp only [List.head?_cons, Option.mem_def, Option.some.injEq] at hy
  subst hy
  exact hl x hx

theorem minFit_replicate_top (n : ℕ) : minFit (List.replicate n ⊤) = ⊤ := by
  induction n with
  | zero => rfl
  | succ k ih => rw [List.replicate_succ, minFit_cons, ih, min_top_left]

theorem getD_replicate {α : Type _} (n j : ℕ) (x : α) :
    (List.replicate n x).getD j x = x := by
  induction n generalizing j with
  | zero => simp
  | succ k ih =>
    cases j with
    | zero => simp
    | succ m => simpa [List.replicate_succ] using ih m

theorem trajInv_snoc (s1 : S) (s : S) (h1 : s1.inc_score = minFit s1.fitness)
    (h2 : s1.inc_score ≤ s.inc_score) (h3 : s1.traj = s.traj ++ [s1.inc_score])
    (h : TrajInv s) : TrajInv s1 := by
  obtain ⟨_, hc, hl⟩ := h
  refine ⟨h1, ?_, ?_⟩
  · rw [h3]
    apply chain_snoc _ _ _ hc
    intro x hx
    rcases hl with he | hlast
    · rw [he] at hx
      simp at hx
    · rw [hlast] at hx
      simp only [Option.mem_def, Option.some.injEq] at hx
      subst hx
      exact h2
  · right
    rw [h3]
    exact List.getLast?_concat _

theorem applyOp_trajInv (p : Params) (f : Obj) (s : S) (op : OpStep) (h : TrajInv s) :
    TrajInv (applyOp p f s op) := by
  cases op with
  | sel t tid i =>
    obtain ⟨g1, g2, g3⟩ := selectionStep_minInv p f s t tid i h.1
    exact trajInv_snoc _ s g1 g2 g3 h
  | tl t tid i fv cv =>
    obtain ⟨g1, g2, g3⟩ := tell_minInv p s t tid i fv cv (le_of_eq h.1.symm)
    exact trajInv_snoc _ s g1 g2 g3 h

theorem applyOps_trajInv (p : Params) (f : Obj) (ops : List OpStep) :
    ∀ s : S, TrajInv s → TrajInv (applyOps p f ops s) := by
  induction ops with
  | nil => intro s h; exact h
  | cons o os ih =>
    intro s h
    exact ih (applyOp p f s o) (applyOp_trajInv p f s o h)

theorem evalInitStep_fitness (f : Obj) (s : S) (i : ℕ) :
    (evalInitStep f s i).fitness = s.fitness.set i (f (s.population.getD i [])).1 := rfl

theorem foldInit_trajInv (f : Obj) : ∀ (cnt start : ℕ) (s : S), TrajInv s →
    (∀ j, start ≤ j → s.fitness.getD j ⊤ = ⊤) →
    TrajInv (foldIdx (fun s i => evalInitStep f s i) s start cnt) := by
  intro cnt
  induction cnt with
  | zero => intro start s h _; exact h
  | succ k ih =>
    intro start s h hT
    rw [foldIdx]
    apply ih (start + 1)
    · obtain ⟨g1, g2, g3⟩ := evalInitStep_minInv f s start h.1 (hT start (le_refl _))
      exact trajInv_snoc _ s g1 g2 g3 h
    · intro j hj
      rw [evalInitStep_fitness]
      rw [getD_set_ne _ _ _ _ _ (by omega)]
      exact hT j (by omega)

theorem init_trajInv {R : Type} (rng : RNG R) (p : Params) (f : Obj) (r : R) :
    TrajInv (init_eval_pop rng p f true r).1 := by
  unfold init_eval_pop
  dsimp only
  apply foldInit_trajInv
  · refine ⟨?_, List.chain'_nil, Or.inl rfl⟩
    dsimp [announce_population, emptyS]
    rw [minFit_replicate_top]
  · intro j _
    dsimp [announce_population, emptyS]
    exact getD_replicate _ _ _

/-- C5: starting from `init_eval_pop` and applying any sequence of selection steps and
tell calls, the trajectory (the sequence of incumbent scores recorded after the init/eval
updates and after every subsequent update) is non-increasing. -/
theorem c5_inc_score_monotone {R : Type} (rng : RNG R) (p : Params) (f : Obj) (r : R)
    (ops : List OpStep) :
    List.Chain' (fun a b => b ≤ a)
      (applyOps p f ops (init_eval_pop rng p f true r).1).traj :=
  (applyOps_trajInv p f ops _ (init_trajInv rng p f r)).2.1

theorem mutation_some {R : Type} (rng : RNG R) (p : Params) (pop : List Vec)
    (fit : List Fit) (cur : Vec) (best : Option Vec) (alt : Option (List Vec)) (r : R)
    (hv : validMutation p.mutation_strategy) :
    ∃ y, mutation rng p pop fit (some cur) best alt r = some y := by
  simp only [validMutation, List.mem_cons, List.not_mem_nil, or_false] at hv
  rcases hv with h | h | h | h | h | h | h <;> simp [mutation, h]

theorem buildTrial_some {R : Type} (rng : RNG R) (p : Params) (fit : List Fit)
    (bi : Option ℕ) (b : BuildSt) (j : ℕ) (r : R)
    (hv : validMutation p.mutation_strategy) (hx : validCrossover p.crossover_strategy) :
    ∃ y, buildTrial rng p fit bi b j r = some y := by
  obtain ⟨z, hz⟩ := mutation_some rng p b.bpop fit (b.bpop.getD j [])
    (bi.map fun i => b.bpop.getD i []) none r hv
  obtain ⟨donor, r1⟩ := z
  simp only [validCrossover, List.mem_cons, List.not_mem_nil, or_false] at hx
  unfold buildTrial
  dsimp only
  rw [hz]
  rcases hx with h | h <;> rw [h] <;> exact ⟨_, rfl⟩

theorem buildLoop_some {R : Type} (rng : RNG R) (p : Params) (fit : List Fit)
    (bi : Option ℕ) (hv : validMutation p.mutation_strategy)
    (hx : validCrossover p.crossover_strategy) :
    ∀ (k j : ℕ) (b : BuildSt) (acc : List (Vec × ℤ)) (r : R),
    ∃ ts b1 r1, buildLoop rng p fit bi j k b acc r = some (ts, b1, r1) ∧
      ts.length = acc.length + k := by
  intro k
  induction k with
  | zero =>
    intro j b acc r
    exact ⟨acc, b, r, rfl, by omega⟩
  | succ n ih =>
    intro j b acc r
    obtain ⟨y, hy⟩ := buildTrial_some rng p fit bi b j r hv hx
    obtain ⟨ts, b1, r1, hloop, hlen⟩ := ih (j + 1) y.2.1 (acc ++ [y.1]) y.2.2
    refine ⟨ts, b1, r1, ?_, ?_⟩
    · rw [buildLoop, hy]
      exact hloop
    · rw [hlen, List.length_append]
      simp
      omega

theorem buildTrial_bin_pop {R : Type} (rng : RNG R) (p : Params) (fit : List Fit)
    (bi : Option ℕ) (b : BuildSt) (j : ℕ) (r : R) (x : (Vec × ℤ) × BuildSt × R)
    (hx : p.crossover_strategy = "bin")
    (h : buildTrial rng p fit bi b j r = some x) : x.2.1.bpop = b.bpop := by
  unfold buildTrial at h
  dsimp only at h
  cases hm : mutation rng p b.bpop fit (some (b.bpop.getD j []))
      (bi.map fun i => b.bpop.getD i []) none r with
  | none => rw [hm] at h; cases h
  | some dr =>
    obtain ⟨donor, r1⟩ := dr
    rw [hm] at h
    rw [hx] at h
    dsimp only at h
    have hbb : ("bin" : String) = "bin" := rfl
    rw [if_pos hbb] at h
    cases h
    rfl

theorem buildLoop_bin_pop {R : Type} (rng : RNG R) (p : Params) (fit : List Fit)
    (bi : Option ℕ) (hx : p.crossover_strategy = "bin") :
    ∀ (k j : ℕ) (b : BuildSt) (acc : List (Vec × ℤ)) (r : R)
      (ts : List (Vec × ℤ)) (b1 : BuildSt) (r1 : R),
    buildLoop rng p fit bi j k b acc r = some (ts, b1, r1) → b1.bpop = b.bpop := by
  intro k
  induction k with
  | zero =>
    intro j b acc r ts b1 r1 h
    rw [buildLoop] at h
    cases h
    rfl
  | succ n ih =>
    intro j b acc r ts b1 r1 h
    rw [buildLoop] at h
    cases hb : buildTrial rng p fit bi b j r with
    | none => rw [hb] at h; cases h
    | some x =>
      rw [hb] at h
      have h1 := ih (j + 1) x.2.1 (acc ++ [x.1]) x.2.2 ts b1 r1 h
      rw [h1]
      exact buildTrial_bin_pop rng p fit bi b j r x hx hb

theorem selectionStep_frame (p : Params) (f : Obj) (s : S) (t : Vec) (tid : ℤ) (j i : ℕ)
    (h : j ≠ i) :
    (selectionStep p f s t tid j).population.getD i [] = s.population.getD i [] ∧
    (selectionStep p f s t tid j).population_ids.getD i 0 = s.population_ids.getD i 0 ∧
    (selectionStep p f s t tid j).fitness.getD i ⊤ = s.fitness.getD i ⊤ ∧
    (selectionStep p f s t tid j).age.getD i ⊤ = s.age.getD i ⊤ := by
  unfold selectionStep
  dsimp only
  by_cases hrep : (f t).1 ≤ s.fitness.getD j ⊤
  · simp only [if_pos hrep]
    exact ⟨getD_set_ne _ _ _ _ _ h, getD_set_ne _ _ _ _ _ h,
           getD_set_ne _ _ _ _ _ h, getD_set_ne _ _ _ _ _ h⟩
  · simp only [if_neg hrep]
    refine ⟨by trivial, by trivial, by trivial, ?_⟩
    exact getD_set_ne _ _ _ _ _ h

theorem selLoop_frame (p : Params) (f : Obj) (i : ℕ) :
    ∀ (ts : List (Vec × ℤ)) (k : ℕ) (s : S), (∀ m, m < ts.length → k + m ≠ i) →
    (selLoop p f ts k s).population.getD i [] = s.population.getD i [] ∧
    (selLoop p f ts k s).population_ids.getD i 0 = s.population_ids.getD i 0 ∧
    (selLoop p f ts k s).fitness.getD i ⊤ = s.fitness.getD i ⊤ ∧
    (selLoop p f ts k s).age.getD i ⊤ = s.age.getD i ⊤ := by
  intro ts
  induction ts with
  | nil =>
    intro k s _
    exact ⟨rfl, rfl, rfl, rfl⟩
  | cons t rest ih =>
    intro k s hk
    rw [selLoop]
    have h0 : k ≠ i := by
      have := hk 0 (by simp)
      omega
    obtain ⟨a1, a2, a3, a4⟩ := ih (k + 1) (selectionStep p f s t.1 t.2 k)
      (fun m hm => by
        have := hk (m + 1) (by simp only [List.length_cons]; omega)
        omega)
    obtain ⟨b1, b2, b3, b4⟩ := selectionStep_frame p f s t.1 t.2 k i h0
    exact ⟨a1.trans b1, a2.trans b2, a3.trans b3, a4.trans b4⟩

theorem selLoop_append (p : Params) (f : Obj) :
    ∀ (ts1 ts2 : List (Vec × ℤ)) (k : ℕ) (s : S),
    selLoop p f (ts1 ++ ts2) k s =
      selLoop p f ts2 (k + ts1.length) (selLoop p f ts1 k s) := by
  intro ts1
  induction ts1 with
  | nil =>
    intro ts2 k s
    simp [selLoop]
  | cons t rest ih =>
    intro ts2 k s
    rw [List.cons_append, selLoop, selLoop, ih]
    have : k + 1 + rest.length = k + (t :: rest).length := by
      simp only [List.length_cons]
      omega
    rw [this]

theorem selectionStep_loss (p : Params) (f : Obj) (s : S) (t : Vec) (tid : ℤ) (i : ℕ)
    (h : s.fitness.getD i ⊤ < (f t).1) :
    (selectionStep p f s t tid i).population = s.population ∧
    (selectionStep p f s t tid i).population_ids = s.population_ids ∧
    (selectionStep p f s t tid i).fitness = s.fitness ∧
    (selectionStep p f s t tid i).age.getD i ⊤ = ageDec (s.age.getD i ⊤) := by
  have hrep : ¬ (f t).1 ≤ s.fitness.getD i ⊤ := not_le.mpr h
  unfold selectionStep
  dsimp only
  rw [if_neg hrep, if_neg hrep, if_neg hrep, if_neg hrep]
  refine ⟨rfl, rfl, rfl, ?_⟩
  by_cases hi : i < s.age.length
  · exact getD_set_self _ _ _ _ hi
  · rw [set_oob _ _ _ (by omega), getD_oob _ _ _ (by omega)]
    simp [ageDec]

/-- C6 amended: with binomial crossover (any valid mutation strategy), a generation leaves
`population[i]`, `population_ids[i]` and `fitness[i]` unchanged and only decrements
`age[i]` whenever the i-th trial's fitness is strictly greater than the parent's. -/
theorem c6_bin_loss_frame {R : Type} (rng : RNG R) (p : Params) (f : Obj) (s : S) (r : R)
    (hv : validMutation p.mutation_strategy) (hx : p.crossover_strategy = "bin") :
    ∃ ts b r1,
      build_trials rng p s.population s.fitness s.next_id none r = some (ts, b, r1) ∧
      ts.length = p.pop_size ∧
      b.bpop = s.population ∧
      evolve_generation rng p f s r =
        some (selection p f { s with population := b.bpop, next_id := b.bnid } ts, r1) ∧
      ∀ i, i < ts.length → s.fitness.getD i ⊤ < (f (ts.getD i ([], 0)).1).1 →
        (selection p f { s with population := b.bpop, next_id := b.bnid } ts).population.getD
            i [] = s.population.getD i [] ∧
        (selection p f { s with population := b.bpop, next_id := b.bnid }
            ts).population_ids.getD i 0 = s.population_ids.getD i 0 ∧
        (selection p f { s with population := b.bpop, next_id := b.bnid } ts).fitness.getD
            i ⊤ = s.fitness.getD i ⊤ ∧
        (selection p f { s with population := b.bpop, next_id := b.bnid } ts).age.getD i ⊤ =
          ageDec (s.age.getD i ⊤) := by
  have hxv : validCrossover p.crossover_strategy := by
    rw [hx]
    simp [validCrossover]
  obtain ⟨ts, b, r1, hloop, hlen⟩ :=
    buildLoop_some rng p s.fitness none hv hxv p.pop_size 0
      { bpop := s.population, bnid := s.next_id } [] r
  have hbp : b.bpop = s.population :=
    buildLoop_bin_pop rng p s.fitness none hx p.pop_size 0 _ [] r ts b r1 hloop
  refine ⟨ts, b, r1, hloop, by simpa using hlen, hbp, ?_, ?_⟩
  · unfold evolve_generation build_trials
    rw [hloop]
  · intro i hi hloss
    set sg : S := { s with population := b.bpop, next_id := b.bnid } with hsg
    have hdec : ts = ts.take i ++ ts.getD i ([], 0) :: ts.drop (i + 1) := by
      conv_lhs => rw [← List.take_append_drop i ts]
      congr 1
      rw [List.drop_eq_getElem_cons hi]
      congr 1
      rw [List.getD_eq_getElem ts ([], 0) hi]
    have htk : (ts.take i).length = i := by
      rw [List.length_take]
      omega
    have hsel : selection p f sg ts =
        selLoop p f (ts.getD i ([], 0) :: ts.drop (i + 1)) i (selLoop p f (ts.take i) 0 sg) := by
      unfold selection
      conv_lhs => rw [hdec]
      rw [selLoop_append, htk]
      simp
    set mid : S := selLoop p f (ts.take i) 0 sg with hmid
    obtain ⟨m1, m2, m3, m4⟩ := selLoop_frame p f i (ts.take i) 0 sg
      (fun m hm => by rw [htk] at hm; omega)
    have hfitmid : mid.fitness.getD i ⊤ = s.fitness.getD i ⊤ := m3
    obtain ⟨l1, l2, l3, l4⟩ := selectionStep_loss p f mid (ts.getD i ([], 0)).1
      (ts.getD i ([], 0)).2 i (by rw [hfitmid]; exact hloss)
    set stepd : S := selectionStep p f mid (ts.getD i ([], 0)).1 (ts.getD i ([], 0)).2 i
      with hstep
    obtain ⟨d1, d2, d3, d4⟩ := selLoop_frame p f i (ts.drop (i + 1)) (i + 1) stepd
      (fun m hm => by omega)
    rw [hsel, selLoop]
    refine ⟨?_, ?_, ?_, ?_⟩
    · rw [d1, l1, m1, hsg]
      dsimp only
      rw [hbp]
    · rw [d2, l2, m2, hsg]
    · rw [d3, l3, m3, hsg]
    · rw [d4, l4, m4, hsg]

/-- Witness for `c6_bin_loss_frame` at a concrete instance. -/
theorem c6_bin_loss_frame_witness :
    ∃ ts b r1,
      build_trials stubRNG pFix sFix.population sFix.fitness sFix.next_id none 0 =
        some (ts, b, r1) ∧
      ts.length = pFix.pop_size ∧
      b.bpop = sFix.population ∧
      evolve_generation stubRNG pFix fHead sFix 0 =
        some (selection pFix fHead { sFix with population := b.bpop, next_id := b.bnid } ts,
          r1) ∧
      ∀ i, i < ts.length → sFix.fitness.getD i ⊤ < (fHead (ts.getD i ([], 0)).1).1 →
        (selection pFix fHead { sFix with population := b.bpop, next_id := b.bnid }
            ts).population.getD i [] = sFix.population.getD i [] ∧
        (selection pFix fHead { sFix with population := b.bpop, next_id := b.bnid }
            ts).population_ids.getD i 0 = sFix.population_ids.getD i 0 ∧
        (selection pFix fHead { sFix with population := b.bpop, next_id := b.bnid }
            ts).fitness.getD i ⊤ = sFix.fitness.getD i ⊤ ∧
        (selection pFix fHead { sFix with population := b.bpop, next_id := b.bnid }
            ts).age.getD i ⊤ = ageDec (sFix.age.getD i ⊤) :=
  c6_bin_loss_frame stubRNG pFix fHead sFix 0 (by decide) rfl

set_option maxHeartbeats 3200000 in
/-- C6 counterexample: with exponential crossover, `crossover_exp` and `boundary_check`
write through the numpy row view `target = population[j]`, so after a generation every
`population[i]` holds the trial even where the trial lost (fitness 10 > parent fitness 0):
ids and fitness stay, ages decrement, but the vectors are overwritten. -/
theorem c6_exp_overwrites_loser :
    (evolve_generation stubRNG p6 f6 s6 0).map
        (fun x => (x.1.population, x.1.population_ids, x.1.fitness, x.1.age)) =
      some ([[1], [1], [1]], [0, 1, 2],
            [((0 : ℚ) : Fit), ((0 : ℚ) : Fit), ((0 : ℚ) : Fit)],
            [((4 : ℤ) : AgeV), ((4 : ℤ) : AgeV), ((4 : ℤ) : AgeV)]) ∧
    s6.fitness.getD 0 ⊤ < (f6 [1]).1 ∧
    s6.population.getD 0 [] = [2] := by
  refine ⟨?_, by decide, by decide⟩
  simp [evolve_generation, build_trials, buildLoop, buildTrial, mutation,
    sample_population, stubRNG, p6, s6, f6, mutation_rand1, vadd, vsub, vsmul,
    crossover_exp, crossover_exp_loop, boundary_check, numViol, isViol, fixRandom,
    List.range_succ, selection, selLoop, selectionStep, announce_config, ageDec,
    List.filter_cons, getBest]
  decide

theorem rangeIdx_frac (L i : ℕ) (hi : i < L) : rangeIdx L ((i : ℝ) / (L : ℝ)) = i := by
  have hL : (0 : ℝ) < (L : ℝ) := by
    have : 0 < L := by omega
    exact_mod_cast this
  unfold rangeIdx
  rw [Nat.findGreatest_eq_iff]
  refine ⟨by omega, fun _ => le_refl _, ?_⟩
  intro n hn hnL
  rw [div_le_div_iff_of_pos_right hL]
  intro hc
  have : n ≤ i := by exact_mod_cast hc
  omega

theorem npRound_intCast (n : ℤ) : npRound ((n : ℤ) : ℝ) = n := by
  unfold npRound
  rw [Int.floor_intCast, sub_self]
  rw [if_pos (by norm_num)]

theorem getD_zipWith {α β γ : Type _} (f : α → β → γ) :
    ∀ (a : List α) (b : List β) (i : ℕ) (da : α) (db : β) (dc : γ),
    i < a.length → i < b.length →
    (List.zipWith f a b).getD i dc = f (a.getD i da) (b.getD i db) := by
  intro a
  induction a with
  | nil => intro b i da db dc ha _; simp at ha
  | cons x xs ih =>
    intro b i da db dc ha hb
    cases b with
    | nil => simp at hb
    | cons y ys =>
      cases i with
      | zero => simp
      | succ k =>
        simp only [List.zipWith_cons_cons, List.getD_cons_succ]
        exact ih ys k da db dc (by simpa using ha) (by simpa using hb)

theorem roundtrip_hyper (h : Hyper) (v : HVal) (hwf : wfHyper h) (hl : legalVal h v) :
    roundtripClaim h v := by
  cases h with
  | ordinal seq =>
    cases v with
    | fval q => exact absurd hl (by simp [legalVal])
    | ival n =>
      have hmem : n ∈ seq := hl
      have hidx : seq.indexOf n < seq.length := List.indexOf_lt_length.mpr hmem
      simp only [roundtripClaim, encodeHyper, decodeHyper]
      rw [rangeIdx_frac _ _ hidx]
      simp only [exactEq]
      rw [List.getD_eq_getElem seq 0 hidx]
      exact List.getElem_indexOf hidx
  | categorical cs =>
    cases v with
    | fval q => exact absurd hl (by simp [legalVal])
    | ival n =>
      have hmem : n ∈ cs := hl
      have hidx : cs.indexOf n < cs.length := List.indexOf_lt_length.mpr hmem
      simp only [roundtripClaim, encodeHyper, decodeHyper]
      rw [rangeIdx_frac _ _ hidx]
      simp only [exactEq]
      rw [List.getD_eq_getElem cs 0 hidx]
      exact List.getElem_indexOf hidx
  | const cv =>
    cases v with
    | fval q => exact absurd hl (by simp [legalVal])
    | ival n =>
      have : n = cv := hl
      simp [roundtripClaim, encodeHyper, decodeHyper, exactEq, this]
  | uniformFloat l u lg =>
    cases v with
    | ival n => exact absurd hl (by simp [legalVal])
    | fval q =>
      obtain ⟨hlq, hqu⟩ := hl
      have hltu : l < u := hwf.1
      have hne : (u : ℝ) - (l : ℝ) ≠ 0 := sub_ne_zero.mpr (ne_of_gt (by exact_mod_cast hltu))
      cases lg with
      | false =>
        have key : (l : ℝ) + ((u : ℝ) - (l : ℝ)) * (((q - l) / (u - l) : ℚ) : ℝ) = (q : ℝ) := by
          push_cast
          field_simp
        simp only [roundtripClaim, encodeHyper, decodeHyper, Bool.false_eq_true, if_false,
          tolClose, key]
        rw [sub_self, abs_zero]
        norm_num
      | true =>
        have hl0 : (0 : ℝ) < (l : ℝ) := by exact_mod_cast hwf.2 rfl
        have hu0 : (0 : ℝ) < (u : ℝ) := lt_trans hl0 (by exact_mod_cast hltu)
        have hq0 : (0 : ℝ) < (q : ℝ) := lt_of_lt_of_le hl0 (by exact_mod_cast hlq)
        have hlog : Real.log ((u : ℝ) / (l : ℝ)) = Real.log (u : ℝ) - Real.log (l : ℝ) :=
          Real.log_div (ne_of_gt hu0) (ne_of_gt hl0)
        have hlne : Real.log (u : ℝ) - Real.log (l : ℝ) ≠ 0 :=
          sub_ne_zero.mpr (ne_of_gt (Real.log_lt_log hl0 (by exact_mod_cast hltu)))
        have key : Real.exp (Real.log (l : ℝ) +
            Real.log ((q : ℝ) / (l : ℝ)) / Real.log ((u : ℝ) / (l : ℝ)) *
              (Real.log (u : ℝ) - Real.log (l : ℝ))) = (q : ℝ) := by
          rw [hlog, div_mul_cancel₀ _ hlne, Real.log_div (ne_of_gt hq0) (ne_of_gt hl0)]
          rw [show Real.log (l : ℝ) + (Real.log (q : ℝ) - Real.log (l : ℝ)) =
            Real.log (q : ℝ) by ring]
          exact Real.exp_log hq0
        simp only [roundtripClaim, encodeHyper, decodeHyper, if_true, tolClose, key]
        rw [sub_self, abs_zero]
        norm_num
  | uniformInt l u lg =>
    cases v with
    | fval q => exact absurd hl (by simp [legalVal])
    | ival n =>
      obtain ⟨hlq, hqu⟩ := hl
      have hltu : l < u := hwf.1
      have hne : (u : ℝ) - (l : ℝ) ≠ 0 := sub_ne_zero.mpr (ne_of_gt (by exact_mod_cast hltu))
      cases lg with
      | false =>
        have key : (l : ℝ) + ((u : ℝ) - (l : ℝ)) * ((((n : ℚ) - l) / (u - l) : ℚ) : ℝ) =
            ((n : ℤ) : ℝ) := by
          push_cast
          field_simp
        simp only [roundtripClaim, encodeHyper, decodeHyper, Bool.false_eq_true, if_false,
          tolClose, key, npRound_intCast]
        rw [sub_self, abs_zero]
        norm_num
      | true =>
        have hl0 : (0 : ℝ) < (l : ℝ) := by exact_mod_cast hwf.2 rfl
        have hu0 : (0 : ℝ) < (u : ℝ) := lt_trans hl0 (by exact_mod_cast hltu)
        have hq0 : (0 : ℝ) < ((n : ℤ) : ℝ) := by
          have : (l : ℚ) ≤ ((n : ℤ) : ℚ) := hlq
          have h2 : (l : ℝ) ≤ ((n : ℤ) : ℝ) := by exact_mod_cast this
          linarith
        have hlog : Real.log ((u : ℝ) / (l : ℝ)) = Real.log (u : ℝ) - Real.log (l : ℝ) :=
          Real.log_div (ne_of_gt hu0) (ne_of_gt hl0)
        have hlne : Real.log (u : ℝ) - Real.log (l : ℝ) ≠ 0 :=
          sub_ne_zero.mpr (ne_of_gt (Real.log_lt_log hl0 (by exact_mod_cast hltu)))
        have key : Real.exp (Real.log (l : ℝ) +
            Real.log (((n : ℤ) : ℝ) / (l : ℝ)) / Real.log ((u : ℝ) / (l : ℝ)) *
              (Real.log (u : ℝ) - Real.log (l : ℝ))) = ((n : ℤ) : ℝ) := by
          rw [hlog, div_mul_cancel₀ _ hlne, Real.log_div (ne_of_gt hq0) (ne_of_gt hl0)]
          rw [show Real.log (l : ℝ) + (Real.log ((n : ℤ) : ℝ) - Real.log (l : ℝ)) =
            Real.log ((n : ℤ) : ℝ) by ring]
          exact Real.exp_log hq0
        simp only [roundtripClaim, encodeHyper, decodeHyper, if_true, tolClose, key,
          npRound_intCast]
        rw [sub_self, abs_zero]
        norm_num

/-- C4: for every hyperparameter of the space and every legal configuration value at that
position, decoding the encoded configuration recovers the value — exactly for Ordinal,
Categorical and Constant, within 1e-9 for UniformFloat/UniformInteger (log and linear). -/
theorem c4_roundtrip (sp : Space) (c : Config) (i : ℕ) (hi : i < sp.length)
    (hlen : c.length = sp.length) (hwf : wfHyper (sp.getD i (.const 0)))
    (hl : legalVal (sp.getD i (.const 0)) (c.getD i (.ival 0))) :
    (vector_to_configspace sp (configspace_to_vector sp c)).getD i (DVal.ival 0) =
      decodeHyper (sp.getD i (.const 0))
        (encodeHyper (sp.getD i (.const 0)) (c.getD i (.ival 0))) ∧
    roundtripClaim (sp.getD i (.const 0)) (c.getD i (.ival 0)) := by
  constructor
  · unfold vector_to_configspace configspace_to_vector
    rw [getD_zipWith decodeHyper sp (List.zipWith encodeHyper sp c) i (.const 0) 0
      (DVal.ival 0) hi (by rw [List.length_zipWith]; omega)]
    rw [getD_zipWith encodeHyper sp c i (.const 0) (.ival 0) 0 hi (by omega)]
  · exact roundtrip_hyper _ _ hwf hl

/-- Witness for `c4_roundtrip` on a three-hyperparameter space. -/
theorem c4_roundtrip_witness :
    (vector_to_configspace [Hyper.ordinal [3, 5], Hyper.const 7]
        (configspace_to_vector [Hyper.ordinal [3, 5], Hyper.const 7]
          [HVal.ival 5, HVal.ival 7])).getD 0 (DVal.ival 0) =
      decodeHyper ([Hyper.ordinal [3, 5], Hyper.const 7].getD 0 (.const 0))
        (encodeHyper ([Hyper.ordinal [3, 5], Hyper.const 7].getD 0 (.const 0))
          ([HVal.ival 5, HVal.ival 7].getD 0 (.ival 0))) ∧
    roundtripClaim ([Hyper.ordinal [3, 5], Hyper.const 7].getD 0 (.const 0))
      ([HVal.ival 5, HVal.ival 7].getD 0 (.ival 0)) :=
  c4_roundtrip [Hyper.ordinal [3, 5], Hyper.const 7] [HVal.ival 5, HVal.ival 7] 0
    (by decide) (by decide) (by decide) (by decide)

theorem removeFirst_length (t : Vec) (l : List Vec) (h : t ∈ l) :
    (removeFirst t l).length + 1 = l.length := by
  induction l with
  | nil => simp at h
  | cons x xs ih =>
    rw [removeFirst]
    by_cases hx : x = t
    · simp [hx]
    · have hm : t ∈ xs := by
        rcases List.mem_cons.mp h with h1 | h1
        · exact absurd h1.symm hx
        · exact h1
      simp only [if_neg hx, List.length_cons]
      rw [← ih hm]

/-- C2: when a `DE.selection` step replaces the parent and improves the incumbent,
`inc_id` receives `self.population[i]` — the winning row itself (source line 540) — and not
the winner's integer config id stored at `population_ids[i]`. -/
theorem c2_selection_inc_id_is_vector :
    (selectionStep pFix fHead sFix [2] 7 1).inc_score = ((2 : ℚ) : Fit) ∧
    (selectionStep pFix fHead sFix [2] 7 1).fitness.getD 1 ⊤ = ((2 : ℚ) : Fit) ∧
    (selectionStep pFix fHead sFix [2] 7 1).population_ids.getD 1 0 = 7 ∧
    (selectionStep pFix fHead sFix [2] 7 1).inc_id = IncId.rowv 1 ∧
    (selectionStep pFix fHead sFix [2] 7 1).inc_id ≠ IncId.idv 7 := by
  decide

/-- C3: two consecutive `ask` calls on a fresh instance both succeed — the second ask hands
out the next trial (target index 1) instead of raising, because `_ask_queue` is never
appended to, so `assert len(self._ask_queue) == 0` cannot fire. -/
theorem c3_double_ask_succeeds :
    ((ask stubRNG pFix fHead freshAsk 0).toOption.map (fun x => x.2.1.ask_queue.length)
        = some 0) ∧
    ((ask stubRNG pFix fHead freshAsk 0).toOption.bind
        (fun x => (ask stubRNG pFix fHead x.2.1 x.2.2).toOption.map (fun y => y.1.2.2))
        = some 1) := by
  decide

/-- Parameters selecting the `randtobest1` mutation strategy. -/
def pRTB : Params := { pFix with mutation_strategy := "randtobest1" }

/-- Population exhibiting the `randtobest1` formula. -/
def popRTB : List Vec := [[0], [1], [0]]

/-- Fitness array for `popRTB`. -/
def fitRTB : List Fit := [((3 : ℚ) : Fit), ((3 : ℚ) : Fit), ((3 : ℚ) : Fit)]

/-- C7 counterexample: `randtobest1` draws THREE parents `[r1, r2, r3]` and produces
`r1 + F·(best − r1) + F·(r2 − r3)` (= 5/2 here), which differs from the claimed
`r1 + F·(best − r2) + F·(r3 − r4)` for every choice of a fourth parent among the drawn
ones. -/
theorem c7_randtobest1_counterexample :
    mutation stubRNG pRTB popRTB fitRTB (some [9]) (some [4]) none 0 = some ([5/2], 1) ∧
    (sample_population stubRNG popRTB 3 none 0).1 = [[0], [1], [0]] ∧
    ∀ r4 ∈ (sample_population stubRNG popRTB 3 none 0).1,
      ([5/2] : Vec) ≠
        vadd (vadd [0] (vsmul ((1 : ℚ)/2) (vsub [4] [1]))) (vsmul ((1 : ℚ)/2) (vsub [0] r4)) := by
  refine ⟨?_, by simp [sample_population, stubRNG, popRTB, List.range_succ], ?_⟩
  · simp [mutation, pRTB, pFix, popRTB, fitRTB, sample_population, stubRNG,
      mutation_currenttobest1, getBest, List.range_succ]
    norm_num [vadd, vsub, vsmul]
  · simp [sample_population, stubRNG, popRTB, List.range_succ]
    norm_num [vadd, vsub, vsmul]

/-- C9 counterexample: a `DE` constructed with the unknown (but two-part) strategy name
`foo_bar` and a missing objective raises nothing at construction time; the missing
objective only surfaces on the first `f_objective` call. -/
theorem c9_misconfig_constructs :
    (DEConstruct (some "foo_bar") none).isOk = true ∧
    ((DEConstruct (some "foo_bar") none).toOption.map (fun x => (x.1, x.2.1))
        = some (some "foo", some "bar")) ∧
    fObjectiveCall none [0] = .error "NotImplementedError" := by
  refine ⟨by decide, by decide, rfl⟩

/-- C7 amended: for the `randtobest1` strategy (in both `DE.mutation` and
`AsyncDE.mutation`) the sampling step draws THREE parents `r1, r2, r3` and the donor is
`mutation_currenttobest1(r1, best, r2, r3) = r1 + F·(best − r1) + F·(r2 − r3)`, with `best`
the supplied best vector. -/
theorem c7_randtobest1_donor {R : Type} (rng : RNG R) (p : Params) (pop : List Vec)
    (fit : List Fit) (cur : Option Vec) (bv : Vec) (alt : Option (List Vec)) (r : R)
    (h : p.mutation_strategy = "randtobest1") :
    mutation rng p pop fit cur (some bv) alt r =
      some (mutation_currenttobest1 p.mutation_factor
              ((sample_population rng pop 3 alt r).1.getD 0 []) bv
              ((sample_population rng pop 3 alt r).1.getD 1 [])
              ((sample_population rng pop 3 alt r).1.getD 2 []),
            (sample_population rng pop 3 alt r).2) ∧
    asyncMutation rng p pop fit cur (some bv) alt r =
      some (mutation_currenttobest1 p.mutation_factor
              ((asyncSamplePopulation rng p pop alt cur 3 3 r).1.getD 0 []) bv
              ((asyncSamplePopulation rng p pop alt cur 3 3 r).1.getD 1 [])
              ((asyncSamplePopulation rng p pop alt cur 3 3 r).1.getD 2 []),
            (asyncSamplePopulation rng p pop alt cur 3 3 r).2) := by
  constructor <;> simp [mutation, asyncMutation, h, getBest, setMinPopSize]

/-- Witness for `c7_randtobest1_donor` at a concrete instance. -/
theorem c7_randtobest1_donor_witness :
    mutation stubRNG pRTB popRTB fitRTB (some [9]) (some [4]) none 0 =
      some (mutation_currenttobest1 pRTB.mutation_factor
              ((sample_population stubRNG popRTB 3 none 0).1.getD 0 []) [4]
              ((sample_population stubRNG popRTB 3 none 0).1.getD 1 [])
              ((sample_population stubRNG popRTB 3 none 0).1.getD 2 []),
            (sample_population stubRNG popRTB 3 none 0).2) :=
  (c7_randtobest1_donor stubRNG pRTB popRTB fitRTB (some [9]) [4] none 0 rfl).1

/-- C8 counterexample: with a single-member pool equal to the target, the `len > 1` guard
skips the removal, so the target stays in the sampling pool and can be drawn. -/
theorem c8_target_not_removed_counterexample :
    (asyncPool stubRNG pFix [[2]] none (some [2]) 3 0).1 = [[2], [0], [0]] ∧
    [2] ∈ (asyncPool stubRNG pFix [[2]] none (some [2]) 3 0).1 ∧
    [2] ∈ (asyncSamplePopulation stubRNG pFix [[2]] none (some [2]) 3 3 0).1 := by
  decide

/-- C8 amended: when the pool has more than one member, `_sample_population` removes the
first occurrence of the target, and whenever the remaining pool is smaller than
`_min_pop_size` it is padded with freshly sampled individuals to exactly `_min_pop_size`
before drawing; with strategy `best2` (`_min_pop_size = 4`) and a two-member pool the pool
after target exclusion is padded to 4. -/
theorem c8_async_pool_spec {R : Type} (rng : RNG R) (p : Params) (pop : List Vec)
    (t : Vec) (minPop : ℕ) (r : R) (h2 : 1 < pop.length) (hm : t ∈ pop) :
    (asyncPool rng p pop none (some t) minPop r).1.length = max (pop.length - 1) minPop ∧
    (pop.length - 1 < minPop →
      (asyncPool rng p pop none (some t) minPop r).1 =
        removeFirst t pop ++ (rng.uniform_mat (minPop - (pop.length - 1)) p.dimensions r).1) ∧
    (minPop ≤ pop.length - 1 →
      (asyncPool rng p pop none (some t) minPop r).1 = removeFirst t pop) ∧
    (pop.length = 2 → minPop = setMinPopSize "best2" →
      (asyncPool rng p pop none (some t) minPop r).1.length = 4) := by
  have hrl : (removeFirst t pop).length = pop.length - 1 := by
    have := removeFirst_length t pop hm
    omega
  have hb2 : setMinPopSize "best2" = 4 := by decide
  have hpool : asyncPool rng p pop none (some t) minPop r =
      if (removeFirst t pop).length < minPop then
        (removeFirst t pop ++
          (rng.uniform_mat (minPop - (removeFirst t pop).length) p.dimensions r).1,
         (rng.uniform_mat (minPop - (removeFirst t pop).length) p.dimensions r).2)
      else (removeFirst t pop, r) := by
    simp only [asyncPool]
    rw [if_pos h2]
  rw [hpool]
  by_cases hlt : (removeFirst t pop).length < minPop
  · rw [if_pos hlt]
    dsimp only
    refine ⟨?_, ?_, ?_, ?_⟩
    · rw [List.length_append, rng.uniform_mat_len, hrl]
      rw [hrl] at hlt
      omega
    · intro _
      rw [hrl]
    · intro hle
      rw [hrl] at hlt
      exact absurd hlt (by omega)
    · intro hp2 hmp
      rw [List.length_append, rng.uniform_mat_len, hrl, hp2]
      rw [hmp, hb2]
  · rw [if_neg hlt]
    dsimp only
    rw [hrl] at hlt
    refine ⟨?_, ?_, ?_, ?_⟩
    · rw [hrl]
      omega
    · intro hc
      exact absurd hc hlt
    · intro _
      rfl
    · intro hp2 hmp
      rw [hmp, hb2] at hlt
      omega

/-- Witness for `c8_async_pool_spec` at a concrete instance (`best2`, two individuals). -/
theorem c8_async_pool_spec_witness :
    (asyncPool stubRNG pFix [[2], [3]] none (some [3]) 4 0).1.length =
        max ([[2], [3]].length - 1) 4 ∧
    ([[2], [3]].length - 1 < 4 →
      (asyncPool stubRNG pFix [[2], [3]] none (some [3]) 4 0).1 =
        removeFirst [3] [[2], [3]] ++
          (stubRNG.uniform_mat (4 - ([[2], [3]].length - 1)) pFix.dimensions 0).1) ∧
    (4 ≤ [[2], [3]].length - 1 →
      (asyncPool stubRNG pFix [[2], [3]] none (some [3]) 4 0).1 = removeFirst [3] [[2], [3]]) ∧
    ([[2], [3]].length = 2 → 4 = setMinPopSize "best2" →
      (asyncPool stubRNG pFix [[2], [3]] none (some [3]) 4 0).1.length = 4) :=
  c8_async_pool_spec stubRNG pFix [[2], [3]] [3] 4 0 (by decide) (by decide)

/-- C9 amended: an invalid `async_strategy` and a strategy name without two `_`-separated
parts fail at construction; a well-formed but unknown strategy name and a missing objective
are accepted at construction and only fail on first use (`mutation` / `f_objective`). -/
theorem c9_failure_surfaces :
    (∀ (f : Option Obj) (a : String),
        a ∉ (["immediate", "random", "worst", "deferred"] : List String) →
        AsyncDEConstruct (some "rand1_bin") f a = .error "AssertionError") ∧
    (∀ (s : String) (f : Option Obj), (pySplit s '_').length < 2 →
        DEConstruct (some s) f = .error "IndexError") ∧
    (∀ x : Vec, fObjectiveCall none x = .error "NotImplementedError") ∧
    (∀ p : Params, p.mutation_strategy = "foo" → mutationCallFails p) := by
  refine ⟨?_, ?_, fun x => rfl, ?_⟩
  · intro f a ha
    have h1 : DEConstruct (some "rand1_bin") f = .ok (some "rand1", some "bin", f) := rfl
    simp [AsyncDEConstruct, h1, ha]
  · intro s f hs
    unfold DEConstruct strategyParse
    dsimp only
    cases hm : pySplit s '_' with
    | nil => rfl
    | cons x ys =>
      cases ys with
      | nil => rfl
      | cons y rest =>
        rw [hm] at hs
        simp only [List.length_cons] at hs
        omega
  · intro p hp
    intro R rng pop fit c b a r
    simp [mutation, hp]

/-- Witness for `c9_failure_surfaces` at concrete instances. -/
theorem c9_failure_surfaces_witness :
    AsyncDEConstruct (some "rand1_bin") none "bogus" = .error "AssertionError" ∧
    DEConstruct (some "nounderscore") none = .error "IndexError" :=
  ⟨c9_failure_surfaces.1 none "bogus" (by decide),
   c9_failure_surfaces.2.1 "nounderscore" none (by decide)⟩

/-- C10: `DE.tell` with any in-range target index and any result applies the one-vs-one
selection update at that index and appends exactly one entry to each of the three
trajectory arrays, on every ask-surface state (outstanding ask or not) and without
validating the (trial, trial_id, target_idx) triple. -/
theorem c10_tell_unconditional (p : Params) (a : AskSt) (trial : Vec) (tid : ℤ) (i : ℕ)
    (fitness : Fit) (cost : ℚ) (hi : i < p.pop_size) :
    (tellA p a trial tid i fitness cost).core.traj.length = a.core.traj.length + 1 ∧
    (tellA p a trial tid i fitness cost).core.runtime.length = a.core.runtime.length + 1 ∧
    (tellA p a trial tid i fitness cost).core.history.length = a.core.history.length + 1 ∧
    (tellA p a trial tid i fitness cost).core.fitness =
      (if fitness ≤ a.core.fitness.getD i ⊤ then a.core.fitness.set i fitness
       else a.core.fitness) ∧
    (tellA p a trial tid i fitness cost).core.population =
      (if fitness ≤ a.core.fitness.getD i ⊤ then a.core.population.set i trial
       else a.core.population) ∧
    (tellA p a trial tid i fitness cost).core.population_ids =
      (if fitness ≤ a.core.fitness.getD i ⊤ then a.core.population_ids.set i tid
       else a.core.population_ids) ∧
    (tellA p a trial tid i fitness cost).core.age =
      (if fitness ≤ a.core.fitness.getD i ⊤ then a.core.age.set i p.max_age
       else a.core.age.set i (ageDec (a.core.age.getD i ⊤))) ∧
    (tellA p a trial tid i fitness cost).ask_queue = a.ask_queue ∧
    (tellA p a trial tid i fitness cost).trials = a.trials ∧
    (tellA p a trial tid i fitness cost).cur_trial_idx = a.cur_trial_idx ∧
    (tellA p a trial tid i fitness cost).initFlag = a.initFlag ∧
    (tellA p a trial tid i fitness cost).ask_counter = a.ask_counter := by
  by_cases h : fitness ≤ a.core.fitness.getD i ⊤ <;>
    simp [tellA, tell, h]

/-- Witness for `c10_tell_unconditional` at a concrete instance with a nonempty stale
trial buffer. -/
theorem c10_tell_unconditional_witness :
    (tellA pFix aFix [9] 5 1 ((2 : ℚ) : Fit) 1).core.traj.length =
      aFix.core.traj.length + 1 :=
  (c10_tell_unconditional pFix aFix [9] 5 1 ((2 : ℚ) : Fit) 1 (by decide)).1

theorem getD_replicate_lt {α : Type _} (n k : ℕ) (x d : α) (hk : k < n) :
    (List.replicate n x).getD k d = x := by
  induction n generalizing k with
  | zero => omega
  | succ m ih =>
    cases k with
    | zero => simp
    | succ j => simpa [List.replicate_succ] using ih j (by omega)

theorem getD_map_append {α β : Type _} (f : α → β) :
    ∀ (pre : List α) (x : α) (rest : List α) (d : β),
    ((pre ++ x :: rest).map f).getD pre.length d = f x := by
  intro pre
  induction pre with
  | nil => intro x rest d; simp
  | cons y ys ih => intro x rest d; simpa using ih x rest d

theorem askTellSteps_split {R : Type} (rng : RNG R) (p : Params) (f : Obj) :
    ∀ (m n : ℕ) (a : AskSt) (r : R),
    askTellSteps rng p f (m + n) a r =
      (match askTellSteps rng p f m a r with
       | .error e => .error e
       | .ok (a1, r1) => askTellSteps rng p f n a1 r1) := by
  intro m
  induction m with
  | zero =>
    intro n a r
    rw [Nat.zero_add]
    rfl
  | succ k ih =>
    intro n a r
    rw [Nat.succ_add, askTellSteps, askTellSteps]
    cases ask rng p f a r with
    | error e => rfl
    | ok x => exact ih n _ _

theorem init_eval_pop_split {R : Type} (rng : RNG R) (p : Params) (f : Obj) (r : R) :
    init_eval_pop rng p f true r =
      (foldIdx (fun s i => evalInitStep f s i) (init_eval_pop rng p f false r).1 0 p.pop_size,
       (init_eval_pop rng p f false r).2) := by
  unfold init_eval_pop
  rfl

theorem init_eval_pop_false_fields {R : Type} (rng : RNG R) (p : Params) (f : Obj) (r : R) :
    (init_eval_pop rng p f false r).1.fitness = List.replicate p.pop_size ⊤ ∧
    (init_eval_pop rng p f false r).1.age = List.replicate p.pop_size p.max_age ∧
    (init_eval_pop rng p f false r).1.inc_score = ⊤ ∧
    (init_eval_pop rng p f false r).1.traj = [] := by
  unfold init_eval_pop announce_population
  exact ⟨rfl, rfl, rfl, rfl⟩

theorem ask_init {R : Type} (rng : RNG R) (p : Params) (f : Obj) (t : S) (k : ℕ) (r : R)
    (hk : k < p.pop_size) :
    ask rng p f (mkInitAsk p t k) r =
      .ok ((t.population.getD k [], t.population_ids.getD k 0, k),
           mkInitAsk p t (k + 1), r) := by
  unfold ask mkInitAsk
  simp [if_neg (not_le.mpr hk), Nat.mod_eq_of_lt hk]

theorem ask_fresh {R : Type} (rng : RNG R) (p : Params) (f : Obj) (r : R)
    (hp : 0 < p.pop_size) :
    ask rng p f freshAsk r =
      ask rng p f (mkInitAsk p (init_eval_pop rng p f false r).1 0)
        (init_eval_pop rng p f false r).2 := by
  rw [ask_init rng p f _ 0 _ hp]
  unfold ask freshAsk
  dsimp only
  rfl

theorem ask_build {R : Type} (rng : RNG R) (p : Params) (f : Obj) (a : AskSt) (r : R)
    (ts : List (Vec × ℤ)) (b : BuildSt) (r2 : R)
    (hq : a.ask_queue = []) (hpr : a.pop_ready = true) (hif : a.initFlag = false)
    (hex : a.trials.length = 0 ∨ a.trials.length ≤ a.cur_trial_idx)
    (hbuild : build_trials rng p a.core.population a.core.fitness a.core.next_id
      a.core.inc_config r = some (ts, b, r2)) :
    ask rng p f a r =
      .ok (((ts.map Prod.fst).getD 0 [], (ts.map Prod.snd).getD 0 0, 0),
           { a with core := { a.core with population := b.bpop, next_id := b.bnid },
                    trials := ts.map Prod.fst, trial_ids := ts.map Prod.snd,
                    cur_trial_idx := 1 }, r2) := by
  unfold ask
  simp [hq, hpr, hif, if_pos hex, hbuild]
  intro h1 h2
  exfalso
  rcases hex with h | h
  · exact h1 (List.eq_nil_of_length_eq_zero h)
  · omega

theorem ask_next {R : Type} (rng : RNG R) (p : Params) (f : Obj) (a : AskSt) (r : R)
    (hq : a.ask_queue = []) (hpr : a.pop_ready = true) (hif : a.initFlag = false)
    (hcur : a.cur_trial_idx < a.trials.length) :
    ask rng p f a r =
      .ok ((a.trials.getD a.cur_trial_idx [], a.trial_ids.getD a.cur_trial_idx 0,
            a.cur_trial_idx),
           { a with cur_trial_idx := a.cur_trial_idx + 1 }, r) := by
  have hnc : ¬ (a.trials.length = 0 ∨ a.trials.length ≤ a.cur_trial_idx) := by
    push_neg
    omega
  unfold ask
  simp [hq, hpr, hif, if_neg hnc]
  intro h
  rcases h with h | h
  · exact absurd hcur (by simp [h])
  · omega

theorem mutation_best_none {R : Type} (rng : RNG R) (p : Params) (pop : List Vec)
    (fit : List Fit) (cur : Option Vec) (alt : Option (List Vec)) (r : R) :
    mutation rng p pop fit cur (some (pop.getD (argminIdx fit) [])) alt r =
      mutation rng p pop fit cur none alt r := by
  unfold mutation getBest
  rfl

theorem buildTrial_best {R : Type} (rng : RNG R) (p : Params) (fit : List Fit)
    (b : BuildSt) (j : ℕ) (r : R) :
    buildTrial rng p fit (some (argminIdx fit)) b j r = buildTrial rng p fit none b j r := by
  unfold buildTrial
  have hmap : Option.map (fun i => b.bpop.getD i []) (some (argminIdx fit)) =
      some (b.bpop.getD (argminIdx fit) []) := rfl
  dsimp only
  rw [hmap, mutation_best_none]
  rfl

theorem buildLoop_best {R : Type} (rng : RNG R) (p : Params) (fit : List Fit) :
    ∀ (k j : ℕ) (b : BuildSt) (acc : List (Vec × ℤ)) (r : R),
    buildLoop rng p fit (some (argminIdx fit)) j k b acc r =
      buildLoop rng p fit none j k b acc r := by
  intro k
  induction k with
  | zero => intro j b acc r; rfl
  | succ n ih =>
    intro j b acc r
    rw [buildLoop, buildLoop, buildTrial_best]
    cases buildTrial rng p fit none b j r with
    | none => rfl
    | some x => exact ih (j + 1) x.2.1 (acc ++ [x.1]) x.2.2

theorem tell_inc_eq (p : Params) (t : S) (trial : Vec) (tid : ℤ) (i : ℕ) (v : Fit)
    (c : ℚ) :
    (tell p t trial tid i v c).inc_score = minFit (tell p t trial tid i v c).fitness :=
  getD_argminIdx _

theorem tell_traj_eq (p : Params) (t : S) (trial : Vec) (tid : ℤ) (i : ℕ) (v : Fit)
    (c : ℚ) :
    (tell p t trial tid i v c).traj = t.traj ++ [(tell p t trial tid i v c).inc_score] :=
  rfl

/-- One evaluation pair: `DE.selection`'s per-index step on the run side and `DE.tell` with
the objective's result on the ask side produce states that agree on every shared field. -/
theorem step_equiv (p : Params) (f : Obj) (s t : S) (trial : Vec) (tid : ℤ) (i : ℕ)
    (hA : Agree s t) (hM : s.inc_score = minFit s.fitness) :
    Agree (selectionStep p f s trial tid i) (tell p t trial tid i (f trial).1 (f trial).2) ∧
    (selectionStep p f s trial tid i).inc_score =
      minFit (selectionStep p f s trial tid i).fitness ∧
    (tell p t trial tid i (f trial).1 (f trial).2).inc_config =
      some (argminIdx (tell p t trial tid i (f trial).1 (f trial).2).fitness) := by
  obtain ⟨e1, e2, e3, e4, e5, e6, e7, e8, e9⟩ := hA
  have hsel := selectionStep_minInv p f s trial tid i hM
  have hfit_s : (selectionStep p f s trial tid i).fitness =
      (if (f trial).1 ≤ s.fitness.getD i ⊤ then s.fitness.set i (f trial).1
       else s.fitness) := rfl
  have hfit_t : (tell p t trial tid i (f trial).1 (f trial).2).fitness =
      (if (f trial).1 ≤ s.fitness.getD i ⊤ then s.fitness.set i (f trial).1
       else s.fitness) := by
    unfold tell
    dsimp only
    rw [← e3]
  have hinc_s : (selectionStep p f s trial tid i).inc_score =
      minFit (if (f trial).1 ≤ s.fitness.getD i ⊤ then s.fitness.set i (f trial).1
              else s.fitness) := by
    rw [hsel.1, hfit_s]
  have hinc_t : (tell p t trial tid i (f trial).1 (f trial).2).inc_score =
      minFit (if (f trial).1 ≤ s.fitness.getD i ⊤ then s.fitness.set i (f trial).1
              else s.fitness) := by
    rw [tell_inc_eq, hfit_t]
  refine ⟨⟨?_, ?_, ?_, ?_, ?_, ?_, ?_, ?_, ?_⟩, hsel.1, rfl⟩
  · show _ = (tell p t trial tid i (f trial).1 (f trial).2).population
    have hp_s : (selectionStep p f s trial tid i).population =
        (if (f trial).1 ≤ s.fitness.getD i ⊤ then s.population.set i trial
         else s.population) := rfl
    have hp_t : (tell p t trial tid i (f trial).1 (f trial).2).population =
        (if (f trial).1 ≤ s.fitness.getD i ⊤ then s.population.set i trial
         else s.population) := by
      unfold tell
      dsimp only
      rw [← e1, ← e3]
    rw [hp_s, hp_t]
  · have hp_s : (selectionStep p f s trial tid i).population_ids =
        (if (f trial).1 ≤ s.fitness.getD i ⊤ then s.population_ids.set i tid
         else s.population_ids) := rfl
    have hp_t : (tell p t trial tid i (f trial).1 (f trial).2).population_ids =
        (if (f trial).1 ≤ s.fitness.getD i ⊤ then s.population_ids.set i tid
         else s.population_ids) := by
      unfold tell
      dsimp only
      rw [← e2, ← e3]
    rw [hp_s, hp_t]
  · rw [hfit_s, hfit_t]
  · have hp_s : (selectionStep p f s trial tid i).age =
        (if (f trial).1 ≤ s.fitness.getD i ⊤ then s.age.set i p.max_age
         else s.age.set i (ageDec (s.age.getD i ⊤))) := rfl
    have hp_t : (tell p t trial tid i (f trial).1 (f trial).2).age =
        (if (f trial).1 ≤ s.fitness.getD i ⊤ then s.age.set i p.max_age
         else s.age.set i (ageDec (s.age.getD i ⊤))) := by
      unfold tell
      dsimp only
      rw [← e3, ← e4]
    rw [hp_s, hp_t]
  · rw [hinc_s, hinc_t]
  · rw [hsel.2.2, tell_traj_eq, e6, hinc_s, hinc_t]
  · show s.runtime ++ [(f trial).2] = t.runtime ++ [(f trial).2]
    rw [e7]
  · show s.history ++ [(trial, (f trial).1)] = t.history ++ [(trial, (f trial).1)]
    rw [e8]
  · exact e9

theorem set_replicate {α : Type _} (n i : ℕ) (x : α) :
    (List.replicate n x).set i x = List.replicate n x := by
  by_cases h : i < n
  · have h2 := set_getD_self (List.replicate n x) i x
    rwa [getD_replicate_lt n i x x h] at h2
  · refine set_oob _ _ _ ?_
    simp only [List.length_replicate]
    omega

/-- One init-phase evaluation pair: `init_eval_pop`'s loop body on the run side and
`DE.tell` on the just-asked initial individual on the ask side keep the states in
agreement; the tell side keeps the ages at `max_age` and leaves the incumbent index at the
fitness argmin. -/
theorem init_step_equiv (p : Params) (f : Obj) (s t : S) (k : ℕ)
    (hA : Agree s t) (hM : s.inc_score = minFit s.fitness)
    (hT : s.fitness.getD k ⊤ = ⊤)
    (hage : t.age = List.replicate p.pop_size p.max_age) :
    Agree (evalInitStep f s k)
      (tell p t (t.population.getD k []) (t.population_ids.getD k 0) k
        (f (t.population.getD k [])).1 (f (t.population.getD k [])).2) ∧
    (evalInitStep f s k).inc_score = minFit (evalInitStep f s k).fitness ∧
    (tell p t (t.population.getD k []) (t.population_ids.getD k 0) k
        (f (t.population.getD k [])).1 (f (t.population.getD k [])).2).age =
      List.replicate p.pop_size p.max_age ∧
    (tell p t (t.population.getD k []) (t.population_ids.getD k 0) k
        (f (t.population.getD k [])).1 (f (t.population.getD k [])).2).inc_config =
      some (argminIdx (tell p t (t.population.getD k []) (t.population_ids.getD k 0) k
        (f (t.population.getD k [])).1 (f (t.population.getD k [])).2).fitness) := by
  obtain ⟨e1, e2, e3, e4, e5, e6, e7, e8, e9⟩ := hA
  have hEM := evalInitStep_minInv f s k hM hT
  have hrep : (f (t.population.getD k [])).1 ≤ t.fitness.getD k ⊤ := by
    rw [← e3, hT]
    exact le_top
  have hpop_t : (tell p t (t.population.getD k []) (t.population_ids.getD k 0) k
      (f (t.population.getD k [])).1 (f (t.population.getD k [])).2).population =
      t.population := by
    unfold tell
    dsimp only
    rw [if_pos hrep, set_getD_self]
  have hids_t : (tell p t (t.population.getD k []) (t.population_ids.getD k 0) k
      (f (t.population.getD k [])).1 (f (t.population.getD k [])).2).population_ids =
      t.population_ids := by
    unfold tell
    dsimp only
    rw [if_pos hrep, set_getD_self]
  have hfit_t : (tell p t (t.population.getD k []) (t.population_ids.getD k 0) k
      (f (t.population.getD k [])).1 (f (t.population.getD k [])).2).fitness =
      t.fitness.set k (f (t.population.getD k [])).1 := by
    unfold tell
    dsimp only
    rw [if_pos hrep]
  have hage_t : (tell p t (t.population.getD k []) (t.population_ids.getD k 0) k
      (f (t.population.getD k [])).1 (f (t.population.getD k [])).2).age =
      List.replicate p.pop_size p.max_age := by
    unfold tell
    dsimp only
    rw [if_pos hrep, hage, set_replicate]
  have hfit_s : (evalInitStep f s k).fitness =
      s.fitness.set k (f (s.population.getD k [])).1 := rfl
  have hinc_s : (evalInitStep f s k).inc_score =
      minFit (t.fitness.set k (f (t.population.getD k [])).1) := by
    rw [hEM.1, hfit_s, e1, e3]
  have hinc_t : (tell p t (t.population.getD k []) (t.population_ids.getD k 0) k
      (f (t.population.getD k [])).1 (f (t.population.getD k [])).2).inc_score =
      minFit (t.fitness.set k (f (t.population.getD k [])).1) := by
    rw [tell_inc_eq, hfit_t]
  refine ⟨⟨?_, ?_, ?_, ?_, ?_, ?_, ?_, ?_, ?_⟩, hEM.1, hage_t, rfl⟩
  · show s.population = _
    rw [hpop_t, e1]
  · show s.population_ids = _
    rw [hids_t, e2]
  · rw [hfit_s, hfit_t, e1, e3]
  · show s.age = _
    rw [hage_t, e4, hage]
  · rw [hinc_s, hinc_t]
  · rw [hEM.2.2, tell_traj_eq, e6, hinc_s, hinc_t]
  · show s.runtime ++ [(f (s.population.getD k [])).2] = _
    show _ = t.runtime ++ [(f (t.population.getD k [])).2]
    rw [e1, e7]
  · show s.history ++ [(s.population.getD k [], (f (s.population.getD k [])).1)] = _
    show _ = t.history ++ [(t.population.getD k [], (f (t.population.getD k [])).1)]
    rw [e1, e8]
  · exact e9

/-- The init phase of the ask/tell drive: the remaining `m` ask/tell pairs starting at
index `k` land in the state `DE.init_eval_pop`'s evaluation loop produces on the run side,
with the tell-side incumbent index at the fitness argmin once at least one tell happened. -/
theorem initPhase_equiv {R : Type} (rng : RNG R) (p : Params) (f : Obj) :
    ∀ (m k : ℕ) (s t : S) (r : R),
    k + m = p.pop_size →
    Agree s t →
    s.inc_score = minFit s.fitness →
    (∀ i, k ≤ i → s.fitness.getD i ⊤ = ⊤) →
    t.age = List.replicate p.pop_size p.max_age →
    ∃ t1,
      askTellSteps rng p f m (mkInitAsk p t k) r =
        .ok (mkInitAsk p t1 p.pop_size, r) ∧
      Agree (foldIdx (fun s2 i => evalInitStep f s2 i) s k m) t1 ∧
      (foldIdx (fun s2 i => evalInitStep f s2 i) s k m).inc_score =
        minFit (foldIdx (fun s2 i => evalInitStep f s2 i) s k m).fitness ∧
      (m = 0 → t1 = t) ∧
      (0 < m → t1.inc_config = some (argminIdx t1.fitness)) := by
  intro m
  induction m with
  | zero =>
    intro k s t r hk hA hM hT hage
    refine ⟨t, ?_, hA, hM, fun _ => rfl, fun h => absurd h (by omega)⟩
    rw [Nat.add_zero] at hk
    rw [hk]
    rfl
  | succ n ih =>
    intro k s t r hk hA hM hT hage
    have hklt : k < p.pop_size := by omega
    obtain ⟨hA1, hM1, hage1, hinc1⟩ := init_step_equiv p f s t k hA hM (hT k le_rfl) hage
    have hT1 : ∀ i, k + 1 ≤ i → (evalInitStep f s k).fitness.getD i ⊤ = ⊤ := by
      intro i hi
      have hf : (evalInitStep f s k).fitness =
          s.fitness.set k (f (s.population.getD k [])).1 := rfl
      rw [hf, getD_set_ne _ _ _ _ _ (by omega)]
      exact hT i (by omega)
    obtain ⟨t1, hsteps, hA2, hM2, hz, hpos⟩ :=
      ih (k + 1) (evalInitStep f s k)
        (tell p t (t.population.getD k []) (t.population_ids.getD k 0) k
          (f (t.population.getD k [])).1 (f (t.population.getD k [])).2) r
        (by omega) hA1 hM1 hT1 hage1
    refine ⟨t1, ?_, hA2, hM2, fun h => absurd h (by omega), fun _ => ?_⟩
    · rw [askTellSteps, ask_init rng p f t k r hklt]
      dsimp only
      exact hsteps
    · rcases Nat.eq_zero_or_pos n with hn | hn
      · subst hn
        rw [hz rfl]
        exact hinc1
      · exact hpos hn

/-- Handing out and telling the already-built trials: `rest.length` ask/tell pairs starting
at buffer position `pre.length` land in the state `DE.selection`'s loop produces on the run
side. -/
theorem genLoop_equiv {R : Type} (rng : RNG R) (p : Params) (f : Obj) (cnt : ℕ) :
    ∀ (rest pre : List (Vec × ℤ)) (s t : S) (r : R),
    Agree s t →
    s.inc_score = minFit s.fitness →
    ∃ t1,
      askTellSteps rng p f rest.length (mkGenAsk p t (pre ++ rest) pre.length cnt) r =
        .ok (mkGenAsk p t1 (pre ++ rest) (pre.length + rest.length) cnt, r) ∧
      Agree (selLoop p f rest pre.length s) t1 ∧
      (selLoop p f rest pre.length s).inc_score =
        minFit (selLoop p f rest pre.length s).fitness ∧
      (rest = [] → t1 = t) ∧
      (rest ≠ [] → t1.inc_config = some (argminIdx t1.fitness)) := by
  intro rest
  induction rest with
  | nil =>
    intro pre s t r hA hM
    refine ⟨t, ?_, hA, hM, fun _ => rfl, fun h => absurd rfl h⟩
    rw [List.length_nil, Nat.add_zero]
    rfl
  | cons x rest ih =>
    intro pre s t r hA hM
    obtain ⟨hA1, hM1, hinc1⟩ := step_equiv p f s t x.1 x.2 pre.length hA hM
    obtain ⟨t1, hsteps, hA2, hM2, hz, hpos⟩ :=
      ih (pre ++ [x]) (selectionStep p f s x.1 x.2 pre.length)
        (tell p t x.1 x.2 pre.length (f x.1).1 (f x.1).2) r hA1 hM1
    have hlen1 : (pre ++ [x]).length = pre.length + 1 := by simp
    have happ : (pre ++ [x]) ++ rest = pre ++ x :: rest := by simp
    rw [hlen1, happ] at hsteps
    rw [hlen1] at hA2 hM2
    refine ⟨t1, ?_, hA2, hM2, fun h => absurd h (by simp), fun _ => ?_⟩
    · have hcur : pre.length < (pre ++ x :: rest).length := by
        simp only [List.length_append, List.length_cons]
        omega
      rw [List.length_cons, askTellSteps,
        ask_next rng p f (mkGenAsk p t (pre ++ x :: rest) pre.length cnt) r rfl rfl rfl
          (by simpa [mkGenAsk] using hcur)]
      dsimp only [mkGenAsk]
      have htr : ((pre ++ x :: rest).map Prod.fst).getD pre.length [] = x.1 :=
        getD_map_append Prod.fst pre x rest []
      have hid : ((pre ++ x :: rest).map Prod.snd).getD pre.length 0 = x.2 :=
        getD_map_append Prod.snd pre x rest 0
      rw [htr, hid]
      have hgoal : pre.length + (rest.length + 1) = pre.length + 1 + rest.length := by
        omega
      rw [hgoal]
      exact hsteps
    · rcases List.eq_nil_or_concat rest with hn | hn
      · rw [hz hn]
        exact hinc1
      · refine hpos ?_
        obtain ⟨ys, y, hy⟩ := hn
        rw [hy]
        simp

/-- One full generation: `DE.evolve_generation` on the run side and `pop_size` ask/tell
pairs (the first ask rebuilding the trial buffer with `best=self.inc_config`) on the ask
side produce agreeing states and the same RNG state. -/
theorem gen_equiv {R : Type} (rng : RNG R) (p : Params) (f : Obj) (s t : S)
    (full0 : List (Vec × ℤ)) (k0 cnt : ℕ) (r : R)
    (hN : 0 < p.pop_size) (hV : ValidStrategy p)
    (hA : Agree s t) (hM : s.inc_score = minFit s.fitness)
    (hI : t.inc_config = some (argminIdx t.fitness))
    (hex : full0.length = 0 ∨ full0.length ≤ k0) :
    ∃ s1 t1 full1 r1,
      evolve_generation rng p f s r = some (s1, r1) ∧
      askTellSteps rng p f p.pop_size (mkGenAsk p t full0 k0 cnt) r =
        .ok (mkGenAsk p t1 full1 p.pop_size cnt, r1) ∧
      full1.length = p.pop_size ∧
      Agree s1 t1 ∧ s1.inc_score = minFit s1.fitness ∧
      t1.inc_config = some (argminIdx t1.fitness) := by
  obtain ⟨e1, e2, e3, e4, e5, e6, e7, e8, e9⟩ := hA
  obtain ⟨ts, b, r2, hloop, hlen⟩ := buildLoop_some rng p s.fitness none hV.1 hV.2
    p.pop_size 0 { bpop := s.population, bnid := s.next_id } [] r
  have hlen' : ts.length = p.pop_size := by
    rw [hlen]
    simp
  have hbuild_t : build_trials rng p t.population t.fitness t.next_id t.inc_config r =
      some (ts, b, r2) := by
    rw [hI]
    show buildLoop rng p t.fitness (some (argminIdx t.fitness)) 0 p.pop_size
      { bpop := t.population, bnid := t.next_id } [] r = some (ts, b, r2)
    rw [buildLoop_best, ← e1, ← e3, ← e9]
    exact hloop
  have hevo : evolve_generation rng p f s r =
      some (selection p f { s with population := b.bpop, next_id := b.bnid } ts, r2) := by
    unfold evolve_generation
    rw [show build_trials rng p s.population s.fitness s.next_id none r =
      some (ts, b, r2) from hloop]
  cases ts with
  | nil =>
    exfalso
    rw [List.length_nil] at hlen'
    omega
  | cons x rest =>
    have hA2 : Agree { s with population := b.bpop, next_id := b.bnid }
        { t with population := b.bpop, next_id := b.bnid } :=
      ⟨rfl, e2, e3, e4, e5, e6, e7, e8, rfl⟩
    have hM2 : ({ s with population := b.bpop, next_id := b.bnid } : S).inc_score =
        minFit ({ s with population := b.bpop, next_id := b.bnid } : S).fitness := hM
    obtain ⟨hA3, hM3, hinc3⟩ := step_equiv p f
      { s with population := b.bpop, next_id := b.bnid }
      { t with population := b.bpop, next_id := b.bnid } x.1 x.2 0 hA2 hM2
    obtain ⟨t1, hsteps, hA4, hM4, hz, hpos⟩ := genLoop_equiv rng p f cnt rest [x]
      (selectionStep p f { s with population := b.bpop, next_id := b.bnid } x.1 x.2 0)
      (tell p { t with population := b.bpop, next_id := b.bnid } x.1 x.2 0
        (f x.1).1 (f x.1).2) r2 hA3 hM3
    simp only [List.singleton_append, List.length_singleton] at hsteps hA4 hM4
    have hNeq : p.pop_size = rest.length + 1 := by
      rw [← hlen']
      simp
    refine ⟨selection p f { s with population := b.bpop, next_id := b.bnid } (x :: rest),
      t1, x :: rest, r2, hevo, ?_, hlen', hA4, hM4, ?_⟩
    · rw [hNeq, askTellSteps,
        ask_build rng p f (mkGenAsk p t full0 k0 cnt) r (x :: rest) b r2 rfl rfl rfl
          (by
            simp only [mkGenAsk]
            simpa using hex) hbuild_t]
      dsimp only
      have h1 : 1 + rest.length = rest.length + 1 := by omega
      rw [h1] at hsteps
      exact hsteps
    · rcases List.eq_nil_or_concat rest with hn | hn
      · rw [hz hn]
        exact hinc3
      · refine hpos ?_
        obtain ⟨ys, y, hy⟩ := hn
        rw [hy]
        simp

/-- Iterating `gen_equiv`: `G` generations of `DE.run`'s loop match `pop_size·G` ask/tell
pairs and end with the same RNG state and agreeing optimizer states. -/
theorem genPhase_equiv {R : Type} (rng : RNG R) (p : Params) (f : Obj)
    (hN : 0 < p.pop_size) (hV : ValidStrategy p) :
    ∀ (G : ℕ) (s t : S) (full0 : List (Vec × ℤ)) (k0 cnt : ℕ) (r : R),
    Agree s t →
    s.inc_score = minFit s.fitness →
    t.inc_config = some (argminIdx t.fitness) →
    (full0.length = 0 ∨ full0.length ≤ k0) →
    ∃ s1 t1 full1 k1 r1,
      runGens rng p f G s r = some (s1, r1) ∧
      askTellSteps rng p f (p.pop_size * G) (mkGenAsk p t full0 k0 cnt) r =
        .ok (mkGenAsk p t1 full1 k1 cnt, r1) ∧
      Agree s1 t1 := by
  intro G
  induction G with
  | zero =>
    intro s t full0 k0 cnt r hA hM hI hex
    refine ⟨s, t, full0, k0, r, rfl, ?_, hA⟩
    rw [Nat.mul_zero]
    rfl
  | succ g ih =>
    intro s t full0 k0 cnt r hA hM hI hex
    obtain ⟨s1, t1, full1, r1, hevo, hsteps1, hlen1, hA1, hM1, hI1⟩ :=
      gen_equiv rng p f s t full0 k0 cnt r hN hV hA hM hI hex
    obtain ⟨s2, t2, full2, k2, r2, hrun, hsteps2, hA2⟩ :=
      ih s1 t1 full1 p.pop_size cnt r1 hA1 hM1 hI1 (Or.inr (le_of_eq hlen1))
    refine ⟨s2, t2, full2, k2, r2, ?_, ?_, hA2⟩
    · rw [runGens, hevo]
      exact hrun
    · have hmul : p.pop_size * (g + 1) = p.pop_size + p.pop_size * g := by ring
      rw [hmul, askTellSteps_split, hsteps1]
      exact hsteps2

theorem mkInitAsk_done (p : Params) (t : S) :
    mkInitAsk p t p.pop_size = mkGenAsk p t [] 0 p.pop_size := by
  unfold mkInitAsk mkGenAsk
  simp

/-- C1: for every RNG interpretation (seed/stream), population size, recognised strategy
pair and pure deterministic objective, `DE.run(generations=G)` and a fresh instance driven
by `pop_size·(G+1)` ask/tell pairs in the same logical order (each tell passing the
objective's result for the asked trial) succeed together, consume the RNG identically, and
produce element-wise equal `traj` arrays. -/
theorem c1_run_ask_tell_equiv {R : Type} (rng : RNG R) (p : Params) (f : Obj) (G : ℕ)
    (r : R) (hN : 0 < p.pop_size) (hV : ValidStrategy p) :
    ∃ sEnd rEnd aEnd,
      DErun rng p f G r = some (sEnd, rEnd) ∧
      askTellRun rng p f G r = .ok (aEnd, rEnd) ∧
      aEnd.core.traj = sEnd.traj := by
  obtain ⟨hfit0, hage0, hinc0, htraj0⟩ := init_eval_pop_false_fields rng p f r
  have hM0 : (init_eval_pop rng p f false r).1.inc_score =
      minFit (init_eval_pop rng p f false r).1.fitness := by
    rw [hinc0, hfit0, minFit_replicate_top]
  have hT0 : ∀ i, 0 ≤ i → (init_eval_pop rng p f false r).1.fitness.getD i ⊤ = ⊤ := by
    intro i _
    rw [hfit0]
    exact getD_replicate p.pop_size i ⊤
  have hA0 : Agree (init_eval_pop rng p f false r).1 (init_eval_pop rng p f false r).1 :=
    ⟨rfl, rfl, rfl, rfl, rfl, rfl, rfl, rfl, rfl⟩
  obtain ⟨tN, hstepsInit, hAInit, hMInit, _, hposInit⟩ :=
    initPhase_equiv rng p f p.pop_size 0 (init_eval_pop rng p f false r).1
      (init_eval_pop rng p f false r).1 (init_eval_pop rng p f false r).2
      (Nat.zero_add _) hA0 hM0 hT0 hage0
  obtain ⟨s2, t2, full2, k2, r2, hrun2, hsteps2, hA2⟩ :=
    genPhase_equiv rng p f hN hV G
      (foldIdx (fun s2 i => evalInitStep f s2 i) (init_eval_pop rng p f false r).1 0
        p.pop_size)
      tN [] 0 p.pop_size (init_eval_pop rng p f false r).2
      hAInit hMInit (hposInit hN) (Or.inl rfl)
  obtain ⟨n, hn⟩ : ∃ n, p.pop_size = n + 1 := ⟨p.pop_size - 1, by omega⟩
  have hfresh : askTellSteps rng p f p.pop_size freshAsk r =
      askTellSteps rng p f p.pop_size (mkInitAsk p (init_eval_pop rng p f false r).1 0)
        (init_eval_pop rng p f false r).2 := by
    rw [hn, askTellSteps, askTellSteps, ask_fresh rng p f r hN]
  have hfirst : askTellSteps rng p f p.pop_size freshAsk r =
      .ok (mkInitAsk p tN p.pop_size, (init_eval_pop rng p f false r).2) :=
    hfresh.trans hstepsInit
  refine ⟨s2, r2, mkGenAsk p t2 full2 k2 p.pop_size, ?_, ?_, ?_⟩
  · show runGens rng p f G
      (foldIdx (fun s2 i => evalInitStep f s2 i) (init_eval_pop rng p f false r).1 0
        p.pop_size)
      (init_eval_pop rng p f false r).2 = some (s2, r2)
    exact hrun2
  · show askTellSteps rng p f (p.pop_size * (G + 1)) freshAsk r = _
    have hsplitN : p.pop_size * (G + 1) = p.pop_size + p.pop_size * G := by ring
    rw [hsplitN, askTellSteps_split, hfirst]
    dsimp only
    rw [mkInitAsk_done p tN]
    exact hsteps2
  · show t2.traj = s2.traj
    exact (hA2.2.2.2.2.2.1).symm

/-- Witness for C1 at a concrete instance: `rand1_bin` with three one-dimensional
individuals, one generation, the head-coordinate objective and the stub RNG stream. -/
theorem c1_run_ask_tell_equiv_witness :
    0 < pFix.pop_size ∧ ValidStrategy pFix ∧
    ∃ sEnd rEnd aEnd,
      DErun stubRNG pFix fHead 1 0 = some (sEnd, rEnd) ∧
      askTellRun stubRNG pFix fHead 1 0 = .ok (aEnd, rEnd) ∧
      aEnd.core.traj = sEnd.traj :=
  ⟨by decide, by decide,
   c1_run_ask_tell_equiv stubRNG pFix fHead 1 0 (by decide) (by decide)⟩

end DEHB
